import Mathlib

/-!
# pMSSMFilter: the baseline event selection of the run-II pMSSM effort

Shallow embedding of `pMSSMFilter::filter`
(`GeneratorInterface/GenFilters/src/pMSSMFilter.cc`, lines 85-164).

Modelling conventions.

* Finite `double` and `float` values are rationals.  The floating-point operations
  the function calls (`+`, `-`, `pow(., 2)`, `sqrt`, the narrowing of the
  assignment to `float decaylength`) are not code of the repository: the
  embedding takes them as a parameter `Arith`, and every statement made for all
  `Arith` holds for the arithmetic the program runs on.  Comparisons and `abs`
  are exact on floating-point values and are embedded as such.
* `ieee` is the instance that rounds every operation to nearest, ties to even,
  at precision 53 (`double`) or 24 (`float`), with an unbounded exponent range:
  overflow, subnormal numbers, infinities and NaN are outside the model.
* `pdgId` and `status` are `int`; `abs(pdgId)` is `Int.natAbs`, compared with
  the four constants 13, 11, 22 and 1000024 only, so 32-bit wrap-around plays
  no part.  `abs(gp.eta())` is the floating-point overload, `|eta|`.  The four
  `int` counters are natural numbers (collections shorter than `2^31`).
* `gp.daughter(0)` is a reference that may fail to resolve; dereferencing an
  unresolved reference is a fatal error, so `filter` returns `Option Bool`
  with `none` standing for that error.
-/

namespace PMSSM

/-! ## Floating-point operations -/

/-- The floating-point operations `filter` calls, on finite values: `add` and `sub` are `+`
and `-` on `double`, `pow2 x` is `pow(x, 2)`, `sqrt` is `sqrt` on `double`, and `toFloat` is the
conversion made by the assignment to `float decaylength`. -/
structure Arith where
  add : ℚ → ℚ → ℚ
  sub : ℚ → ℚ → ℚ
  pow2 : ℚ → ℚ
  sqrt : ℚ → ℚ
  toFloat : ℚ → ℚ

/-- Nearest integer, a tie going to the even neighbour. -/
def roundHalfEven (q : ℚ) : ℤ :=
  if Int.fract q < 1 / 2 then ⌊q⌋
  else if 1 / 2 < Int.fract q then ⌊q⌋ + 1
  else if ⌊q⌋ % 2 = 0 then ⌊q⌋ else ⌊q⌋ + 1

/-- Spacing of the binary floating-point numbers of precision `p` in the binade of `x`. -/
def ulp (p : ℕ) (x : ℚ) : ℚ := (2 : ℚ) ^ (Int.log 2 |x| + 1 - (p : ℤ))

/-- Rounding to the nearest binary floating-point number of precision `p`, ties to even. -/
def roundNE (p : ℕ) (x : ℚ) : ℚ := (roundHalfEven (x / ulp p x) : ℚ) * ulp p x

/-- Correctly rounded square root at precision `p`.  With `k` so large that
`s = ⌊sqrt (y * 4^k)⌋` has at least `p + 2` bits, the root is `s / 2^k` when `s^2 = y * 4^k`,
and otherwise lies strictly between `s / 2^k` and `(s + 1) / 2^k`, where every number rounds
as the midpoint `(2 s + 1) / 2^(k + 1)` does. -/
def sqrtNE (p : ℕ) (y : ℚ) : ℚ :=
  if y ≤ 0 then 0
  else
    let k : ℕ := ((p : ℤ) + 1 - Int.log 4 y).toNat
    let s : ℕ := Nat.sqrt ⌊y * 4 ^ k⌋₊
    if (s : ℚ) ^ 2 = y * 4 ^ k then roundNE p ((s : ℚ) / 2 ^ k)
    else roundNE p ((2 * (s : ℚ) + 1) / 2 ^ (k + 1))

/-- IEEE 754 arithmetic, round to nearest even: `double` operations at precision 53, the
narrowing to `float` at precision 24.  `sqrt` is correctly rounded, as IEEE 754 requires;
`pow(x, 2)` is taken to return the correctly rounded square, as `x * x` does. -/
def ieee : Arith :=
  { add := fun a b => roundNE 53 (a + b)
    sub := fun a b => roundNE 53 (a - b)
    pow2 := fun x => roundNE 53 (x * x)
    sqrt := sqrtNE 53
    toFloat := roundNE 24 }

/-! ## The source: records, configuration and `filter` -/

/-- Record reached through a daughter reference; the filter reads only its vertex. -/
structure Candidate where
  vx : ℚ
  vy : ℚ
deriving DecidableEq

/-- The fields of `reco::GenParticle` read by the filter.  `daughters` lists, per
daughter slot, the record the reference resolves to (`none` when it does not). -/
structure GenParticle where
  pdgId : Int
  status : Int
  isLastCopy : Bool
  pt : ℚ
  eta : ℚ
  vx : ℚ
  vy : ℚ
  daughters : List (Option Candidate)
deriving DecidableEq

/-- Number of daughter slots: `gp.numberOfDaughters()`. -/
def GenParticle.numberOfDaughters (gp : GenParticle) : Nat := gp.daughters.length

/-- Pointer returned by `gp.daughter(i)`; `none` is the null pointer. -/
def GenParticle.daughter (gp : GenParticle) (i : Nat) : Option Candidate :=
  (gp.daughters.get? i).join

/-- The fields of `reco::GenJet` read by the filter. -/
structure GenJet where
  pt : ℚ
  eta : ℚ
deriving DecidableEq

/-- Member data of `class pMSSMFilter`: the thirteen thresholds. -/
structure pMSSMFilter where
  muPtCut_ : ℚ
  muEtaCut_ : ℚ
  elPtCut_ : ℚ
  elEtaCut_ : ℚ
  gammaPtCut_ : ℚ
  gammaEtaCut_ : ℚ
  loosemuPtCut_ : ℚ
  looseelPtCut_ : ℚ
  loosegammaPtCut_ : ℚ
  veryloosegammaPtCut_ : ℚ
  jetPtCut_ : ℚ
  jetEtaCut_ : ℚ
  genHTcut_ : ℚ

/-- The four local counters of `filter` (lines 93-96). -/
structure Counters where
  looseel_ : Nat
  loosemu_ : Nat
  loosegamma_ : Nat
  veryloosegamma_ : Nat
deriving DecidableEq

/-- Initial value of the counters: all four are zero. -/
def Counters.zero : Counters := ⟨0, 0, 0, 0⟩

/-- Control flow after a piece of the loop body: the function returned `b`,
execution falls through with counters `c`, or a null daughter was dereferenced. -/
inductive Flow where
  | returned (b : Bool)
  | next (c : Counters)
  | fault
deriving DecidableEq

/-- Sequencing of two consecutive statements: the second runs only when the
first fell through. -/
def Flow.andThen (x : Flow) (k : Counters → Flow) : Flow :=
  match x with
  | Flow.next c => k c
  | Flow.returned b => Flow.returned b
  | Flow.fault => Flow.fault

/-- Lines 104-111: the `abs(gp.pdgId()) == 13` block. -/
def muonBlock (f : pMSSMFilter) (gp : GenParticle) (c : Counters) : Flow :=
  if gp.pdgId.natAbs = 13 then
    if gp.pt > f.muPtCut_ ∧ |gp.eta| < f.muEtaCut_ then Flow.returned true
    else if gp.pt > f.loosemuPtCut_ ∧ |gp.eta| < f.muEtaCut_ then
      Flow.next { c with loosemu_ := c.loosemu_ + 1 }
    else Flow.next c
  else Flow.next c

/-- Lines 112-119: the `abs(gp.pdgId()) == 11` block. -/
def electronBlock (f : pMSSMFilter) (gp : GenParticle) (c : Counters) : Flow :=
  if gp.pdgId.natAbs = 11 then
    if gp.pt > f.elPtCut_ ∧ |gp.eta| < f.elEtaCut_ then Flow.returned true
    else if gp.pt > f.looseelPtCut_ ∧ |gp.eta| < f.elEtaCut_ then
      Flow.next { c with looseel_ := c.looseel_ + 1 }
    else Flow.next c
  else Flow.next c

/-- Lines 120-132: the `abs(gp.pdgId()) == 22` block, with its `else` tier. -/
def photonBlock (f : pMSSMFilter) (gp : GenParticle) (c : Counters) : Flow :=
  if gp.pdgId.natAbs = 22 then
    if gp.pt > f.gammaPtCut_ ∧ |gp.eta| < f.gammaEtaCut_ then Flow.returned true
    else if gp.pt > f.loosegammaPtCut_ ∧ |gp.eta| < f.gammaEtaCut_ then
      Flow.next { c with loosegamma_ := c.loosegamma_ + 1 }
    else if gp.pt > f.veryloosegammaPtCut_ ∧ |gp.eta| < f.gammaEtaCut_ then
      Flow.next { c with veryloosegamma_ := c.veryloosegamma_ + 1 }
    else Flow.next c
  else Flow.next c

/-- The value assigned to `float decaylength` on line 135:
`sqrt(pow(gp.vx() - d->vx(), 2) + pow(gp.vy() - d->vy(), 2))`, computed in `double` and
narrowed to `float`. -/
def decaylength (A : Arith) (gp : GenParticle) (d : Candidate) : ℚ :=
  A.toFloat (A.sqrt (A.add (A.pow2 (A.sub gp.vx d.vx)) (A.pow2 (A.sub gp.vy d.vy))))

/-- Lines 133-143: the `abs(gp.pdgId()) == 1000024` block. -/
def charginoBlock (A : Arith) (gp : GenParticle) (c : Counters) : Flow :=
  if gp.pdgId.natAbs = 1000024 then
    if gp.numberOfDaughters > 0 then
      match gp.daughter 0 with
      | none => Flow.fault
      | some d => if decaylength A gp d > 300 then Flow.returned true else Flow.next c
    else Flow.returned true
  else Flow.next c

/-- Lines 99-144: one iteration of the particle loop. -/
def loopBody (A : Arith) (f : pMSSMFilter) (c : Counters) (gp : GenParticle) : Flow :=
  if gp.status ≠ 1 then Flow.next c
  else if gp.isLastCopy then
    (((muonBlock f gp c).andThen (electronBlock f gp)).andThen
      (photonBlock f gp)).andThen (charginoBlock A gp)
  else Flow.next c

/-- Lines 98-146: the particle loop, in collection order, leaving at the first
`return` or fault. -/
def scan (A : Arith) (f : pMSSMFilter) : Counters → List GenParticle → Flow
  | c, [] => Flow.next c
  | c, gp :: rest =>
    match loopBody A f c gp with
    | Flow.next c1 => scan A f c1 rest
    | Flow.returned b => Flow.returned b
    | Flow.fault => Flow.fault

/-- Lines 153-162: the `genHT` accumulation loop over the jets. -/
def genHT (A : Arith) (f : pMSSMFilter) (jets : List GenJet) : ℚ :=
  jets.foldl
    (fun ht gjet =>
      if gjet.pt > f.jetPtCut_ ∧ |gjet.eta| < f.jetEtaCut_ then A.add ht gjet.pt else ht)
    0

/-- Lines 147-163: what follows the particle loop once it ran to its end. -/
def afterScan (A : Arith) (f : pMSSMFilter) (c : Counters) (jets : List GenJet) : Bool :=
  if c.looseel_ + c.loosemu_ + c.loosegamma_ > 1 then true
  else if c.loosegamma_ > 0 ∧ c.veryloosegamma_ > 0 then true
  else decide (genHT A f jets > f.genHTcut_)

/-- The member function `pMSSMFilter::filter` (lines 85-164) on the two
collections of an event; `none` is the fatal null-daughter dereference. -/
def pMSSMFilter.filter (f : pMSSMFilter) (A : Arith) (gps : List GenParticle)
    (jets : List GenJet) : Option Bool :=
  match scan A f Counters.zero gps with
  | Flow.returned b => some b
  | Flow.fault => none
  | Flow.next c => some (afterScan A f c jets)

/-! ## The selection as the specification words it -/

/-- The particle is classified at all: status 1 and last copy (lines 100-103). -/
def survives (gp : GenParticle) : Bool :=
  decide (gp.status = 1) && gp.isLastCopy

/-- Tight test of the species 13, 11 and 22. -/
def tight (f : pMSSMFilter) (gp : GenParticle) : Bool :=
  (decide (gp.pdgId.natAbs = 13) && decide (gp.pt > f.muPtCut_ ∧ |gp.eta| < f.muEtaCut_)) ||
  (decide (gp.pdgId.natAbs = 11) && decide (gp.pt > f.elPtCut_ ∧ |gp.eta| < f.elEtaCut_)) ||
  (decide (gp.pdgId.natAbs = 22) && decide (gp.pt > f.gammaPtCut_ ∧ |gp.eta| < f.gammaEtaCut_))

/-- Displaced-decay test of the species 1000024: no daughter, or a first daughter whose
`decaylength` is above 300. -/
def displaced (A : Arith) (gp : GenParticle) : Bool :=
  decide (gp.pdgId.natAbs = 1000024) &&
    (decide (gp.numberOfDaughters = 0) ||
      match gp.daughter 0 with
      | some d => decide (decaylength A gp d > 300)
      | none => false)

/-- The particle alone accepts the event. -/
def immediateAccept (A : Arith) (f : pMSSMFilter) (gp : GenParticle) : Bool :=
  survives gp && (tight f gp || displaced A gp)

/-- Surviving muon passing the loose muon test. -/
def looseMu (f : pMSSMFilter) (gp : GenParticle) : Bool :=
  survives gp && decide (gp.pdgId.natAbs = 13) &&
    decide (gp.pt > f.loosemuPtCut_ ∧ |gp.eta| < f.muEtaCut_)

/-- Surviving electron passing the loose electron test. -/
def looseEl (f : pMSSMFilter) (gp : GenParticle) : Bool :=
  survives gp && decide (gp.pdgId.natAbs = 11) &&
    decide (gp.pt > f.looseelPtCut_ ∧ |gp.eta| < f.elEtaCut_)

/-- Surviving photon passing the loose photon test. -/
def looseGamma (f : pMSSMFilter) (gp : GenParticle) : Bool :=
  survives gp && decide (gp.pdgId.natAbs = 22) &&
    decide (gp.pt > f.loosegammaPtCut_ ∧ |gp.eta| < f.gammaEtaCut_)

/-- Surviving photon failing the loose test and passing the very-loose test. -/
def veryLooseGamma (f : pMSSMFilter) (gp : GenParticle) : Bool :=
  survives gp && decide (gp.pdgId.natAbs = 22) &&
    !decide (gp.pt > f.loosegammaPtCut_ ∧ |gp.eta| < f.gammaEtaCut_) &&
    decide (gp.pt > f.veryloosegammaPtCut_ ∧ |gp.eta| < f.gammaEtaCut_)

/-- The first daughter of the particle resolves whenever the loop body reads it:
the particle survives, has species 1000024 and reports a daughter. -/
def resolvable (gp : GenParticle) : Bool :=
  !(survives gp && decide (gp.pdgId.natAbs = 1000024) && decide (gp.numberOfDaughters > 0)) ||
    (gp.daughter 0).isSome

/-- Well-formed particle collection: every first daughter that is read resolves. -/
def WellFormed (gps : List GenParticle) : Prop :=
  ∀ gp ∈ gps, resolvable gp = true

instance (gps : List GenParticle) : Decidable (WellFormed gps) := by
  unfold WellFormed; infer_instance

/-- The jet enters HT: `pt > jetPtCut` and `|eta| < jetEtaCut`. -/
def jetSelected (f : pMSSMFilter) (gjet : GenJet) : Bool :=
  decide (gjet.pt > f.jetPtCut_ ∧ |gjet.eta| < f.jetEtaCut_)

/-- HT as the specification words it: the sum of `pt` over the selected jets, added up in
collection order with the `double` addition. -/
def HT (A : Arith) (f : pMSSMFilter) (jets : List GenJet) : ℚ :=
  ((jets.filter (jetSelected f)).map GenJet.pt).foldl A.add 0

/-- The sum of `pt` over the selected jets in exact arithmetic. -/
def exactHT (f : pMSSMFilter) (jets : List GenJet) : ℚ :=
  ((jets.filter (jetSelected f)).map GenJet.pt).sum

/-- The four counters as the specification words them: counts over the whole
collection. -/
def tally (f : pMSSMFilter) (gps : List GenParticle) : Counters :=
  ⟨gps.countP (looseEl f), gps.countP (looseMu f), gps.countP (looseGamma f),
    gps.countP (veryLooseGamma f)⟩

/-- The declarative decision: an immediate accept anywhere, or Rule A, or Rule B,
or HT above threshold. -/
def decision (A : Arith) (f : pMSSMFilter) (gps : List GenParticle) (jets : List GenJet) :
    Bool :=
  gps.any (immediateAccept A f) ||
  decide ((tally f gps).looseel_ + (tally f gps).loosemu_ + (tally f gps).loosegamma_ > 1) ||
  (decide ((tally f gps).loosegamma_ > 0) && decide ((tally f gps).veryloosegamma_ > 0)) ||
  decide (HT A f jets > f.genHTcut_)

/-! ## Bookkeeping used by the proofs -/

/-- Componentwise sum of two counter records. -/
def Counters.add (a b : Counters) : Counters :=
  ⟨a.looseel_ + b.looseel_, a.loosemu_ + b.loosemu_, a.loosegamma_ + b.loosegamma_,
    a.veryloosegamma_ + b.veryloosegamma_⟩

/-- Add `c` to the counters carried by a fall-through; returns and faults are kept. -/
def Flow.shift (c : Counters) : Flow → Flow
  | Flow.next d => Flow.next (c.add d)
  | Flow.returned b => Flow.returned b
  | Flow.fault => Flow.fault

/-- Surviving photon: status 1, last copy, species 22. -/
def survivingPhoton (gp : GenParticle) : Bool :=
  survives gp && decide (gp.pdgId.natAbs = 22)

/-! ## The engine without Rule B -/

/-- The part after the particle loop with Rule B (lines 150-152) taken out. -/
def afterScanWithoutRuleB (A : Arith) (f : pMSSMFilter) (c : Counters) (jets : List GenJet) : Bool :=
  if c.looseel_ + c.loosemu_ + c.loosegamma_ > 1 then true
  else decide (genHT A f jets > f.genHTcut_)

/-- The engine with Rule B removed: `filter` without lines 150-152. -/
def filterWithoutRuleB (A : Arith) (f : pMSSMFilter) (gps : List GenParticle)
    (jets : List GenJet) : Option Bool :=
  match scan A f Counters.zero gps with
  | Flow.returned b => some b
  | Flow.fault => none
  | Flow.next c => some (afterScanWithoutRuleB A f c jets)

/-! ## Candidates and sample data -/

/-- Surviving particle of species 11, 13 or 22: a candidate for the loose counters. -/
def candidate (gp : GenParticle) : Bool :=
  decide (gp.status = 1) && gp.isLastCopy &&
    (decide (gp.pdgId.natAbs = 11) || decide (gp.pdgId.natAbs = 13) ||
      decide (gp.pdgId.natAbs = 22))

/-- A configuration whose photon tight cut lies below its loose photon cut. -/
def tightBelowLoose : pMSSMFilter :=
  { muPtCut_ := 15, muEtaCut_ := 5 / 2, elPtCut_ := 15, elEtaCut_ := 5 / 2,
    gammaPtCut_ := 10, gammaEtaCut_ := 5 / 2, loosemuPtCut_ := 5 / 2, looseelPtCut_ := 5,
    loosegammaPtCut_ := 30, veryloosegammaPtCut_ := 18, jetPtCut_ := 30, jetEtaCut_ := 5,
    genHTcut_ := 140 }

/-- A sample configuration with tight cuts above the loose ones. -/
def sampleFilter : pMSSMFilter :=
  { muPtCut_ := 15, muEtaCut_ := 5 / 2, elPtCut_ := 15, elEtaCut_ := 5 / 2,
    gammaPtCut_ := 50, gammaEtaCut_ := 5 / 2, loosemuPtCut_ := 5 / 2, looseelPtCut_ := 5,
    loosegammaPtCut_ := 30, veryloosegammaPtCut_ := 18, jetPtCut_ := 30, jetEtaCut_ := 5,
    genHTcut_ := 140 }

/-- A surviving particle of the given identity and transverse momentum, central, at
the origin, without daughters. -/
def particle (pdgId : Int) (pt : ℚ) : GenParticle :=
  { pdgId := pdgId, status := 1, isLastCopy := true, pt := pt, eta := 0, vx := 0, vy := 0,
    daughters := [] }

/-- A surviving particle of species 1000024 at the origin with the given daughter slots. -/
def chargino (daughters : List (Option Candidate)) : GenParticle :=
  { pdgId := 1000024, status := 1, isLastCopy := true, pt := 100, eta := 0, vx := 0, vy := 0,
    daughters := daughters }

theorem roundHalfEven_intCast (n : ℤ) : roundHalfEven (n : ℚ) = n := by
  simp [roundHalfEven]

theorem roundNE_of_rep (p : ℕ) (m e : ℤ) (hm : |m| < 2 ^ p) :
    roundNE p ((m : ℚ) * (2 : ℚ) ^ e) = (m : ℚ) * (2 : ℚ) ^ e := by
  by_cases h0 : m = 0
  · subst h0
    simp [roundNE, roundHalfEven]
  · have hmq : (0 : ℚ) < |(m : ℚ)| := abs_pos.mpr (by exact_mod_cast h0)
    have hx : 0 < |(m : ℚ) * (2 : ℚ) ^ e| := by
      rw [abs_mul]; positivity
    have hlt : |(m : ℚ) * (2 : ℚ) ^ e| < (2 : ℚ) ^ ((p : ℤ) + e) := by
      rw [abs_mul, abs_of_pos (by positivity : (0 : ℚ) < 2 ^ e), zpow_add₀ (by norm_num)]
      apply mul_lt_mul_of_pos_right _ (by positivity)
      have : ((|m| : ℤ) : ℚ) < ((2 ^ p : ℤ) : ℚ) := by exact_mod_cast hm
      simpa using this
    have hlog : Int.log 2 |(m : ℚ) * (2 : ℚ) ^ e| < (p : ℤ) + e :=
      (Int.lt_zpow_iff_log_lt (by norm_num) hx).mp (by exact_mod_cast hlt)
    unfold roundNE ulp
    set L := Int.log 2 |(m : ℚ) * (2 : ℚ) ^ e| with hL
    obtain ⟨k, hk⟩ : ∃ k : ℕ, (k : ℤ) = e - (L + 1 - (p : ℤ)) :=
      ⟨(e - (L + 1 - (p : ℤ))).toNat, Int.toNat_of_nonneg (by omega)⟩
    have hdiv : (m : ℚ) * (2 : ℚ) ^ e / (2 : ℚ) ^ (L + 1 - (p : ℤ)) = ((m * 2 ^ k : ℤ) : ℚ) := by
      rw [mul_div_assoc, ← zpow_sub₀ (by norm_num), ← hk]
      push_cast
      rw [zpow_natCast]
    rw [hdiv, roundHalfEven_intCast]
    push_cast
    rw [mul_assoc, ← zpow_natCast, hk, ← zpow_add₀ (by norm_num)]
    congr 2
    ring

theorem roundHalfEven_spec (q : ℚ) :
    (roundHalfEven q : ℚ) - 1 / 2 ≤ q ∧ q ≤ (roundHalfEven q : ℚ) + 1 / 2 := by
  have h1 : (⌊q⌋ : ℚ) ≤ q := Int.floor_le q
  have h2 : q < (⌊q⌋ : ℚ) + 1 := Int.lt_floor_add_one q
  have hf : Int.fract q = q - ⌊q⌋ := rfl
  unfold roundHalfEven
  split_ifs with ha hb hc
  · rw [hf] at ha
    constructor <;> linarith
  · rw [hf] at hb
    push_cast
    constructor <;> linarith
  · rw [hf] at ha hb
    constructor <;> linarith
  · rw [hf] at ha hb
    push_cast
    constructor <;> linarith

theorem roundHalfEven_mono (q q1 : ℚ) (h : q ≤ q1) : roundHalfEven q ≤ roundHalfEven q1 := by
  by_cases he : q = q1
  · rw [he]
  · by_contra hlt
    push_neg at hlt
    have h1 : roundHalfEven q1 + 1 ≤ roundHalfEven q := hlt
    have h2 : ((roundHalfEven q1 : ℚ)) + 1 ≤ (roundHalfEven q : ℚ) := by exact_mod_cast h1
    have ha := (roundHalfEven_spec q).1
    have hb := (roundHalfEven_spec q1).2
    exact he (le_antisymm h (by linarith))

theorem abs_div_ulp_lt (p : ℕ) (x : ℚ) : |x| / ulp p x < (2 : ℚ) ^ (p : ℤ) := by
  have hlt : |x| < (2 : ℚ) ^ (Int.log 2 |x| + 1) := by
    exact_mod_cast Int.lt_zpow_succ_log_self (by norm_num : 1 < 2) |x|
  have hu : (0 : ℚ) < ulp p x := by unfold ulp; positivity
  rw [div_lt_iff₀ hu]
  unfold ulp
  rw [← zpow_add₀ (by norm_num : (2 : ℚ) ≠ 0)]
  have : (p : ℤ) + (Int.log 2 |x| + 1 - (p : ℤ)) = Int.log 2 |x| + 1 := by ring
  rw [this]
  exact hlt

theorem roundHalfEven_bounds (p : ℕ) (x : ℚ) :
    -(2 : ℤ) ^ p ≤ roundHalfEven (x / ulp p x) ∧ roundHalfEven (x / ulp p x) ≤ (2 : ℤ) ^ p := by
  have hu : (0 : ℚ) < ulp p x := by unfold ulp; positivity
  have h := abs_div_ulp_lt p x
  have hab : |x / ulp p x| = |x| / ulp p x := by rw [abs_div, abs_of_pos hu]
  rw [← hab, abs_lt] at h
  have h2 : ((2 : ℚ) ^ (p : ℤ)) = (((2 : ℤ) ^ p : ℤ) : ℚ) := by push_cast; rw [zpow_natCast]
  constructor
  · have := roundHalfEven_mono (((-(2 : ℤ) ^ p : ℤ)) : ℚ) (x / ulp p x) (by
      push_cast; rw [← zpow_natCast]; exact le_of_lt h.1)
    rwa [roundHalfEven_intCast] at this
  · have := roundHalfEven_mono (x / ulp p x) ((((2 : ℤ) ^ p : ℤ)) : ℚ) (by
      rw [← h2]; exact le_of_lt h.2)
    rwa [roundHalfEven_intCast] at this

theorem roundNE_idem (p : ℕ) (hp : 1 ≤ p) (x : ℚ) : roundNE p (roundNE p x) = roundNE p x := by
  obtain ⟨hlo, hhi⟩ := roundHalfEven_bounds p x
  have hone : |(1 : ℤ)| < 2 ^ p := by
    rw [abs_one]
    exact one_lt_pow₀ (by norm_num) (by omega)
  have hmone : |(-1 : ℤ)| < 2 ^ p := by rwa [abs_neg]
  rcases lt_or_eq_of_le hhi with hlt | heq
  · rcases lt_or_eq_of_le hlo with hgt | heq2
    · have hm : |roundHalfEven (x / ulp p x)| < 2 ^ p := abs_lt.mpr ⟨hgt, hlt⟩
      have := roundNE_of_rep p (roundHalfEven (x / ulp p x)) (Int.log 2 |x| + 1 - (p : ℤ)) hm
      simpa [roundNE, ulp] using this
    · have hval : roundNE p x = ((-1 : ℤ) : ℚ) * (2 : ℚ) ^ (Int.log 2 |x| + 1) := by
        unfold roundNE
        rw [← heq2]
        unfold ulp
        push_cast
        rw [← zpow_natCast, neg_mul, neg_mul, one_mul, ← zpow_add₀ (by norm_num : (2 : ℚ) ≠ 0)]
        congr 2
        ring
      rw [hval]
      exact roundNE_of_rep p (-1) _ hmone
  · have hval : roundNE p x = ((1 : ℤ) : ℚ) * (2 : ℚ) ^ (Int.log 2 |x| + 1) := by
      unfold roundNE
      rw [heq]
      unfold ulp
      push_cast
      rw [← zpow_natCast, one_mul, ← zpow_add₀ (by norm_num : (2 : ℚ) ≠ 0)]
      congr 1
      ring
    rw [hval]
    exact roundNE_of_rep p 1 _ hone

theorem roundNE_zero (p : ℕ) : roundNE p 0 = 0 := by
  simp [roundNE, roundHalfEven]

theorem roundNE_nonneg (p : ℕ) (x : ℚ) (hx : 0 ≤ x) : 0 ≤ roundNE p x := by
  have hu : (0 : ℚ) < ulp p x := by unfold ulp; positivity
  have h := roundHalfEven_mono (((0 : ℤ)) : ℚ) (x / ulp p x) (by
    push_cast; exact div_nonneg hx (le_of_lt hu))
  rw [roundHalfEven_intCast] at h
  unfold roundNE
  exact mul_nonneg (by exact_mod_cast h) (le_of_lt hu)

theorem roundNE_mono_nonneg (p : ℕ) (hp : 1 ≤ p) (x y : ℚ) (hx : 0 ≤ x) (hxy : x ≤ y) :
    roundNE p x ≤ roundNE p y := by
  rcases eq_or_lt_of_le hx with h0 | hpos
  · rw [← h0, roundNE_zero]
    exact roundNE_nonneg p y (le_trans hx hxy)
  · have hy : 0 < y := lt_of_lt_of_le hpos hxy
    have hax : |x| = x := abs_of_pos hpos
    have hay : |y| = y := abs_of_pos hy
    have hlog : Int.log 2 x ≤ Int.log 2 y := Int.log_mono_right hpos hxy
    rcases eq_or_lt_of_le hlog with heq | hlt
    · have hu : ulp p x = ulp p y := by unfold ulp; rw [hax, hay, heq]
      have hupos : (0 : ℚ) < ulp p y := by unfold ulp; positivity
      unfold roundNE
      rw [hu]
      apply mul_le_mul_of_nonneg_right _ (le_of_lt hupos)
      exact_mod_cast roundHalfEven_mono _ _ (div_le_div_of_nonneg_right hxy (le_of_lt hupos))
    · have hux : (0 : ℚ) < ulp p x := by unfold ulp; positivity
      have huy : (0 : ℚ) < ulp p y := by unfold ulp; positivity
      have h1 : roundNE p x ≤ (2 : ℚ) ^ (Int.log 2 x + 1) := by
        have hb := (roundHalfEven_bounds p x).2
        have hb2 : (roundHalfEven (x / ulp p x) : ℚ) ≤ (2 : ℚ) ^ (p : ℤ) := by
          have : (roundHalfEven (x / ulp p x) : ℚ) ≤ (((2 : ℤ) ^ p : ℤ) : ℚ) := by exact_mod_cast hb
          simpa [zpow_natCast] using this
        calc roundNE p x = (roundHalfEven (x / ulp p x) : ℚ) * ulp p x := rfl
          _ ≤ (2 : ℚ) ^ (p : ℤ) * ulp p x := mul_le_mul_of_nonneg_right hb2 (le_of_lt hux)
          _ = (2 : ℚ) ^ (Int.log 2 x + 1) := by
            unfold ulp
            rw [hax, ← zpow_add₀ (by norm_num : (2 : ℚ) ≠ 0)]
            congr 1
            ring
      have h2 : (2 : ℚ) ^ (Int.log 2 y) ≤ roundNE p y := by
        have hyl : (2 : ℚ) ^ (Int.log 2 y) ≤ y := by
          exact_mod_cast Int.zpow_log_le_self (by norm_num : 1 < 2) hy
        obtain ⟨k, hk⟩ : ∃ k : ℕ, (k : ℤ) = (p : ℤ) - 1 := ⟨p - 1, by omega⟩
        have hq : (((2 : ℤ) ^ k : ℤ) : ℚ) ≤ y / ulp p y := by
          rw [le_div_iff₀ huy]
          unfold ulp
          push_cast
          rw [← zpow_natCast, hk, hay, ← zpow_add₀ (by norm_num : (2 : ℚ) ≠ 0)]
          have : (p : ℤ) - 1 + (Int.log 2 y + 1 - (p : ℤ)) = Int.log 2 y := by ring
          rw [this]
          exact hyl
        have hr := roundHalfEven_mono _ _ hq
        rw [roundHalfEven_intCast] at hr
        have hr2 : (2 : ℚ) ^ ((p : ℤ) - 1) ≤ (roundHalfEven (y / ulp p y) : ℚ) := by
          have : (((2 : ℤ) ^ k : ℤ) : ℚ) ≤ (roundHalfEven (y / ulp p y) : ℚ) := by exact_mod_cast hr
          rw [← hk]
          simpa [zpow_natCast] using this
        calc (2 : ℚ) ^ (Int.log 2 y) = (2 : ℚ) ^ ((p : ℤ) - 1) * ulp p y := by
              unfold ulp
              rw [hay, ← zpow_add₀ (by norm_num : (2 : ℚ) ≠ 0)]
              congr 1
              ring
          _ ≤ (roundHalfEven (y / ulp p y) : ℚ) * ulp p y :=
              mul_le_mul_of_nonneg_right hr2 (le_of_lt huy)
      have h3 : (2 : ℚ) ^ (Int.log 2 x + 1) ≤ (2 : ℚ) ^ (Int.log 2 y) :=
        zpow_le_zpow_right₀ (by norm_num) (by omega)
      exact le_trans h1 (le_trans h3 h2)

theorem roundNE_intCast (p : ℕ) (m : ℤ) (hm : |m| < 2 ^ p) : roundNE p (m : ℚ) = (m : ℚ) := by
  have h := roundNE_of_rep p m 0 hm
  simpa using h

theorem ieee_add_mono (a a1 b : ℚ) (ha : 0 ≤ a) (h : a ≤ a1) (hb : 0 ≤ b) :
    ieee.add a b ≤ ieee.add a1 b :=
  roundNE_mono_nonneg 53 (by norm_num) (a + b) (a1 + b) (add_nonneg ha hb) (by linarith)

theorem ieee_add_grow (a b : ℚ) (ha : 0 ≤ a) (hb : 0 ≤ b) (hrep : ieee.add a 0 = a) :
    a ≤ ieee.add a b := by
  have h := roundNE_mono_nonneg 53 (by norm_num) (a + 0) (a + b) (by linarith) (by linarith)
  have hrep2 : roundNE 53 (a + 0) = a := hrep
  rw [hrep2] at h
  exact h

theorem ieee_add_zero : ieee.add 0 0 = 0 := by
  show roundNE 53 (0 + 0) = 0
  rw [add_zero, roundNE_zero]

theorem ieee_add_idem (x y : ℚ) : ieee.add (ieee.add x y) 0 = ieee.add x y := by
  show roundNE 53 (roundNE 53 (x + y) + 0) = roundNE 53 (x + y)
  rw [add_zero, roundNE_idem 53 (by norm_num)]

theorem ieee_add_intCast (a b : ℚ) (m : ℤ) (h : a + b = (m : ℚ)) (hm : |m| < 2 ^ 53) :
    ieee.add a b = (m : ℚ) := by
  show roundNE 53 (a + b) = (m : ℚ)
  rw [h, roundNE_intCast 53 m hm]

theorem loopBody_eq (A : Arith) (f : pMSSMFilter) (c : Counters) (gp : GenParticle)
    (h : resolvable gp = true) :
    loopBody A f c gp =
      if immediateAccept A f gp then Flow.returned true
      else Flow.next (c.add (tally f [gp])) := by
  unfold loopBody
  by_cases hs : gp.status = 1
  · cases hl : gp.isLastCopy
    · simp [hs, hl, immediateAccept, survives, tally, looseEl, looseMu, looseGamma,
        veryLooseGamma, Counters.add, List.countP_cons]
    · by_cases h13 : gp.pdgId.natAbs = 13
      · simp [hs, hl, h13, immediateAccept, survives, tally, looseEl, looseMu, looseGamma,
          veryLooseGamma, Counters.add, muonBlock, electronBlock, photonBlock, charginoBlock,
          Flow.andThen, tight, displaced, List.countP_cons]
        split_ifs <;> simp_all [Flow.andThen]
      by_cases h11 : gp.pdgId.natAbs = 11
      · simp [hs, hl, h11, immediateAccept, survives, tally, looseEl, looseMu, looseGamma,
          veryLooseGamma, Counters.add, muonBlock, electronBlock, photonBlock, charginoBlock,
          Flow.andThen, tight, displaced, List.countP_cons]
        split_ifs <;> simp_all [Flow.andThen]
      by_cases h22 : gp.pdgId.natAbs = 22
      · by_cases ht : f.gammaPtCut_ < gp.pt <;>
        by_cases hlo : f.loosegammaPtCut_ < gp.pt <;>
        by_cases hv : f.veryloosegammaPtCut_ < gp.pt <;>
        by_cases he : |gp.eta| < f.gammaEtaCut_ <;>
        simp [hs, hl, h22, ht, hlo, hv, he, immediateAccept, survives, tally, looseEl, looseMu,
          looseGamma, veryLooseGamma, Counters.add, muonBlock, electronBlock, photonBlock,
          charginoBlock, Flow.andThen, tight, displaced, List.countP_cons]
      by_cases hc : gp.pdgId.natAbs = 1000024
      · by_cases hn : gp.numberOfDaughters = 0
        · simp [hs, hl, hc, hn, immediateAccept, survives, tally, looseEl, looseMu, looseGamma,
            veryLooseGamma, Counters.add, muonBlock, electronBlock, photonBlock, charginoBlock,
            Flow.andThen, tight, displaced, List.countP_cons]
        · have hpos : 0 < gp.numberOfDaughters := Nat.pos_of_ne_zero hn
          cases hd : gp.daughter 0 with
          | none => simp [resolvable, survives, hs, hl, hc, hpos, hd] at h
          | some d =>
            simp [hs, hl, hc, hn, hpos, hd, immediateAccept, survives, tally, looseEl, looseMu,
              looseGamma, veryLooseGamma, Counters.add, muonBlock, electronBlock, photonBlock,
              charginoBlock, Flow.andThen, tight, displaced, List.countP_cons]
      · simp [hs, hl, h13, h11, h22, hc, immediateAccept, survives, tally, looseEl, looseMu,
          looseGamma, veryLooseGamma, Counters.add, muonBlock, electronBlock, photonBlock,
          charginoBlock, Flow.andThen, tight, displaced, List.countP_cons]
  · simp [hs, immediateAccept, survives, tally, looseEl, looseMu, looseGamma,
      veryLooseGamma, Counters.add, List.countP_cons]

theorem Counters.add_zero (c : Counters) : c.add Counters.zero = c := by
  cases c; simp [Counters.add, Counters.zero]

theorem Counters.zero_add (c : Counters) : Counters.zero.add c = c := by
  cases c; simp [Counters.add, Counters.zero]

theorem Counters.add_assoc (a b c : Counters) : (a.add b).add c = a.add (b.add c) := by
  simp [Counters.add, Nat.add_assoc]

theorem muonBlock_shift (f : pMSSMFilter) (gp : GenParticle) (c d : Counters) :
    muonBlock f gp (c.add d) = (muonBlock f gp d).shift c := by
  unfold muonBlock
  split_ifs <;> simp [Flow.shift, Counters.add, Nat.add_assoc]

theorem electronBlock_shift (f : pMSSMFilter) (gp : GenParticle) (c d : Counters) :
    electronBlock f gp (c.add d) = (electronBlock f gp d).shift c := by
  unfold electronBlock
  split_ifs <;> simp [Flow.shift, Counters.add, Nat.add_assoc]

theorem photonBlock_shift (f : pMSSMFilter) (gp : GenParticle) (c d : Counters) :
    photonBlock f gp (c.add d) = (photonBlock f gp d).shift c := by
  unfold photonBlock
  split_ifs <;> simp [Flow.shift, Counters.add, Nat.add_assoc]

theorem charginoBlock_shift (A : Arith) (gp : GenParticle) (c d : Counters) :
    charginoBlock A gp (c.add d) = (charginoBlock A gp d).shift c := by
  unfold charginoBlock
  cases gp.daughter 0 <;> simp only [] <;> split_ifs <;> simp [Flow.shift]

theorem andThen_shift (x : Flow) (k : Counters → Flow) (c : Counters)
    (hk : ∀ d, k (c.add d) = (k d).shift c) :
    (x.shift c).andThen k = (x.andThen k).shift c := by
  cases x <;> simp [Flow.shift, Flow.andThen, hk]

theorem loopBody_shift (A : Arith) (f : pMSSMFilter) (gp : GenParticle) (c d : Counters) :
    loopBody A f (c.add d) gp = (loopBody A f d gp).shift c := by
  unfold loopBody
  split_ifs
  · simp [Flow.shift]
  · rw [muonBlock_shift, andThen_shift _ _ _ (electronBlock_shift f gp c),
      andThen_shift _ _ _ (photonBlock_shift f gp c),
      andThen_shift _ _ _ (charginoBlock_shift A gp c)]
  · simp [Flow.shift]

theorem scan_shift (A : Arith) (f : pMSSMFilter) (gps : List GenParticle) (c d : Counters) :
    scan A f (c.add d) gps = (scan A f d gps).shift c := by
  induction gps generalizing d with
  | nil => simp [scan, Flow.shift]
  | cons gp rest ih =>
    simp only [scan, loopBody_shift]
    cases loopBody A f d gp <;> simp [Flow.shift, ih]

theorem scan_from (A : Arith) (f : pMSSMFilter) (gps : List GenParticle) (c : Counters) :
    scan A f c gps = (scan A f Counters.zero gps).shift c := by
  have h := scan_shift A f gps c Counters.zero
  rwa [Counters.add_zero] at h

theorem scan_append (A : Arith) (f : pMSSMFilter) (c : Counters) (l1 l2 : List GenParticle) :
    scan A f c (l1 ++ l2) = (scan A f c l1).andThen (fun c1 => scan A f c1 l2) := by
  induction l1 generalizing c with
  | nil => simp [scan, Flow.andThen]
  | cons gp rest ih =>
    simp only [List.cons_append, scan]
    cases loopBody A f c gp <;> simp [Flow.andThen, ih]

theorem scan_cons (A : Arith) (f : pMSSMFilter) (c : Counters) (gp : GenParticle)
    (rest : List GenParticle) :
    scan A f c (gp :: rest) = (loopBody A f c gp).andThen (fun c1 => scan A f c1 rest) := by
  simp only [scan]
  cases loopBody A f c gp <;> simp [Flow.andThen]

theorem tally_cons (f : pMSSMFilter) (gp : GenParticle) (gps : List GenParticle) :
    tally f (gp :: gps) = (tally f [gp]).add (tally f gps) := by
  simp only [tally, Counters.add, List.countP_cons, List.countP_nil]
  simp [Nat.add_comm]

theorem scan_eq (A : Arith) (f : pMSSMFilter) (gps : List GenParticle) (hwf : WellFormed gps)
    (c : Counters) :
    scan A f c gps =
      if gps.any (immediateAccept A f) then Flow.returned true
      else Flow.next (c.add (tally f gps)) := by
  induction gps generalizing c with
  | nil => simp [scan, tally, Counters.add]
  | cons gp rest ih =>
    have hgp : resolvable gp = true := hwf gp (List.mem_cons_self _ _)
    have hrest : WellFormed rest := fun q hq => hwf q (List.mem_cons_of_mem _ hq)
    rw [scan_cons, loopBody_eq A f c gp hgp]
    by_cases hi : immediateAccept A f gp = true
    · simp [hi, Flow.andThen]
    · have hi2 : immediateAccept A f gp = false := by simpa using hi
      simp [hi2, Flow.andThen, ih hrest, tally_cons f gp rest, Counters.add_assoc]

theorem genHT_fold (A : Arith) (f : pMSSMFilter) (jets : List GenJet) (a : ℚ) :
    jets.foldl
      (fun ht gjet =>
        if gjet.pt > f.jetPtCut_ ∧ |gjet.eta| < f.jetEtaCut_ then A.add ht gjet.pt else ht) a =
      ((jets.filter (jetSelected f)).map GenJet.pt).foldl A.add a := by
  induction jets generalizing a with
  | nil => rfl
  | cons j rest ih =>
    simp only [List.foldl_cons, ih]
    by_cases hj : j.pt > f.jetPtCut_ ∧ |j.eta| < f.jetEtaCut_
    · simp [jetSelected, hj, List.filter_cons]
    · simp [jetSelected, hj, List.filter_cons]

theorem genHT_eq_HT (A : Arith) (f : pMSSMFilter) (jets : List GenJet) :
    genHT A f jets = HT A f jets := by
  simp [genHT, HT, genHT_fold]

theorem afterScan_tally (A : Arith) (f : pMSSMFilter) (gps : List GenParticle) (jets : List GenJet)
    (hno : gps.any (immediateAccept A f) = false) :
    afterScan A f (tally f gps) jets = decision A f gps jets := by
  simp only [afterScan, decision, hno, genHT_eq_HT]
  split_ifs <;> simp_all

theorem filter_eq_decision (A : Arith) (f : pMSSMFilter) (gps : List GenParticle) (jets : List GenJet)
    (hwf : WellFormed gps) : f.filter A gps jets = some (decision A f gps jets) := by
  unfold pMSSMFilter.filter
  rw [scan_eq A f gps hwf]
  cases hany : gps.any (immediateAccept A f)
  · simp [Counters.zero_add, afterScan_tally A f gps jets hany]
  · simp [decision, hany]

theorem loopBody_of_not_survives (A : Arith) (f : pMSSMFilter) (c : Counters) (gp : GenParticle)
    (h : survives gp = false) : loopBody A f c gp = Flow.next c := by
  unfold loopBody
  by_cases hs : gp.status = 1
  · have hl : gp.isLastCopy = false := by simpa [survives, hs] using h
    simp [hs, hl]
  · simp [hs]

theorem any_immediate_of_mem (A : Arith) (f : pMSSMFilter) (gps : List GenParticle) (gp : GenParticle)
    (hmem : gp ∈ gps) (h : immediateAccept A f gp = true) :
    gps.any (immediateAccept A f) = true :=
  List.any_eq_true.mpr ⟨gp, hmem, h⟩

theorem decision_of_any (A : Arith) (f : pMSSMFilter) (gps : List GenParticle) (jets : List GenJet)
    (h : gps.any (immediateAccept A f) = true) : decision A f gps jets = true := by
  simp [decision, h]

theorem resolvable_of_immediate (A : Arith) (f : pMSSMFilter) (gp : GenParticle)
    (h : immediateAccept A f gp = true) : resolvable gp = true := by
  unfold resolvable
  by_cases hc : gp.pdgId.natAbs = 1000024
  · cases hd : gp.daughter 0 with
    | some d => simp
    | none =>
      simp [immediateAccept, tight, displaced, hc, hd] at h
      simp [h.2]
  · simp [hc]

theorem loopBody_of_immediate (A : Arith) (f : pMSSMFilter) (c : Counters) (gp : GenParticle)
    (h : immediateAccept A f gp = true) : loopBody A f c gp = Flow.returned true := by
  rw [loopBody_eq A f c gp (resolvable_of_immediate A f gp h)]
  simp [h]

theorem loopBody_fault_of_not_resolvable (A : Arith) (f : pMSSMFilter) (c : Counters) (gp : GenParticle)
    (h : resolvable gp = false) : loopBody A f c gp = Flow.fault := by
  have hd : gp.daughter 0 = none := by
    cases hx : gp.daughter 0 with
    | none => rfl
    | some d => simp [resolvable, hx] at h
  by_cases hs : gp.status = 1
  · cases hl : gp.isLastCopy with
    | false => simp [resolvable, survives, hl] at h
    | true =>
      by_cases hc : gp.pdgId.natAbs = 1000024
      · by_cases hn : gp.numberOfDaughters > 0
        · simp [loopBody, hs, hl, hc, hn, hd, muonBlock, electronBlock, photonBlock,
            charginoBlock, Flow.andThen]
        · simp [resolvable, hn] at h
      · simp [resolvable, hc] at h
  · simp [resolvable, survives, hs] at h

theorem wellFormed_of_scan_next (A : Arith) (f : pMSSMFilter) (gps : List GenParticle) (c c1 : Counters)
    (h : scan A f c gps = Flow.next c1) : WellFormed gps := by
  induction gps generalizing c with
  | nil => intro gp hgp; simp at hgp
  | cons gp rest ih =>
    rw [scan_cons] at h
    cases hr : resolvable gp with
    | false => simp [loopBody_fault_of_not_resolvable A f c gp hr, Flow.andThen] at h
    | true =>
      cases hb : loopBody A f c gp with
      | returned b => simp [hb, Flow.andThen] at h
      | fault => simp [hb, Flow.andThen] at h
      | next c2 =>
        simp only [hb, Flow.andThen] at h
        intro q hq
        rcases List.mem_cons.mp hq with rfl | hq
        · exact hr
        · exact ih c2 h q hq

theorem scan_next_eq (A : Arith) (f : pMSSMFilter) (gps : List GenParticle) (c c1 : Counters)
    (h : scan A f c gps = Flow.next c1) :
    gps.any (immediateAccept A f) = false ∧ c1 = c.add (tally f gps) := by
  have hwf := wellFormed_of_scan_next A f gps c c1 h
  rw [scan_eq A f gps hwf] at h
  cases hany : gps.any (immediateAccept A f) with
  | true => simp [hany] at h
  | false =>
    simp only [hany, Bool.false_eq_true, if_false, Flow.next.injEq] at h
    exact ⟨rfl, h.symm⟩

theorem filter_accept_of_immediate (A : Arith) (f : pMSSMFilter) (pre suf : List GenParticle)
    (gp : GenParticle) (jets : List GenJet) (hwf : WellFormed pre)
    (h : immediateAccept A f gp = true) : f.filter A (pre ++ gp :: suf) jets = some true := by
  unfold pMSSMFilter.filter
  rw [scan_append, scan_eq A f pre hwf]
  by_cases hany : pre.any (immediateAccept A f) = true
  · simp [hany, Flow.andThen]
  · simp [hany, Flow.andThen, scan_cons, loopBody_of_immediate A f _ gp h]

theorem scan_filter_survives (A : Arith) (f : pMSSMFilter) (gps : List GenParticle) (c : Counters) :
    scan A f c (gps.filter survives) = scan A f c gps := by
  induction gps generalizing c with
  | nil => rfl
  | cons gp rest ih =>
    cases hs : survives gp with
    | true => simp only [List.filter_cons, hs, if_true, scan_cons, ih]
    | false =>
      simp [List.filter_cons, hs, scan_cons, loopBody_of_not_survives A f c gp hs, Flow.andThen, ih]

theorem photon_tally_le (f : pMSSMFilter) (gps : List GenParticle) :
    (tally f gps).loosegamma_ + (tally f gps).veryloosegamma_ ≤ gps.countP survivingPhoton := by
  induction gps with
  | nil => simp [tally]
  | cons gp rest ih =>
    simp only [tally, List.countP_cons] at ih ⊢
    cases hs : survives gp <;> by_cases h22 : gp.pdgId.natAbs = 22 <;>
      by_cases hlo : f.loosegammaPtCut_ < gp.pt <;>
      by_cases hv : f.veryloosegammaPtCut_ < gp.pt <;>
      by_cases he : |gp.eta| < f.gammaEtaCut_ <;>
      simp [looseGamma, veryLooseGamma, survivingPhoton, hs, h22, hlo, hv, he] <;> omega

theorem decision_perm (A : Arith) (f : pMSSMFilter) (gps gps1 : List GenParticle) (jets : List GenJet)
    (hp : gps.Perm gps1) : decision A f gps jets = decision A f gps1 jets := by
  have hany : gps.any (immediateAccept A f) = gps1.any (immediateAccept A f) := by
    rw [Bool.eq_iff_iff]
    simp only [List.any_eq_true]
    constructor
    · rintro ⟨x, hx, h⟩
      exact ⟨x, hp.mem_iff.mp hx, h⟩
    · rintro ⟨x, hx, h⟩
      exact ⟨x, hp.mem_iff.mpr hx, h⟩
  have ht : tally f gps = tally f gps1 := by
    simp [tally, hp.countP_eq]
  simp [decision, hany, ht]

theorem scan_insert (A : Arith) (f : pMSSMFilter) (c : Counters) (pre suf : List GenParticle)
    (gp : GenParticle) :
    scan A f c (pre ++ gp :: suf) =
      (scan A f c pre).andThen
        (fun c1 => (loopBody A f c1 gp).andThen (fun c2 => scan A f c2 suf)) := by
  rw [scan_append]
  simp only [scan_cons]

theorem foldl_add_eq_sum (A : Arith) (hadd : ∀ a b, A.add a b = a + b) (l : List ℚ) (a : ℚ) :
    l.foldl A.add a = a + l.sum := by
  induction l generalizing a with
  | nil => simp
  | cons x rest ih => simp [List.foldl_cons, ih, hadd, add_assoc]

theorem HT_eq_exactHT (A : Arith) (hadd : ∀ a b, A.add a b = a + b) (f : pMSSMFilter)
    (jets : List GenJet) : HT A f jets = exactHT f jets := by
  simp [HT, exactHT, foldl_add_eq_sum A hadd]

theorem filter_eq_HT (A : Arith) (f : pMSSMFilter) (gps : List GenParticle) (jets : List GenJet)
    (hwf : WellFormed gps) (hany : gps.any (immediateAccept A f) = false)
    (hA : ¬ (tally f gps).looseel_ + (tally f gps).loosemu_ + (tally f gps).loosegamma_ > 1)
    (hB : ¬ ((tally f gps).loosegamma_ > 0 ∧ (tally f gps).veryloosegamma_ > 0)) :
    f.filter A gps jets = some (decide (HT A f jets > f.genHTcut_)) := by
  have hB2 : (tally f gps).loosegamma_ > 0 → (tally f gps).veryloosegamma_ = 0 := by
    intro h1
    by_contra h2
    exact hB ⟨h1, Nat.pos_of_ne_zero h2⟩
  have hd : decision A f gps jets = decide (HT A f jets > f.genHTcut_) := by
    simp only [decision, hany, hA, Bool.false_or, decide_False]
    by_cases hg : (tally f gps).loosegamma_ > 0
    · simp [hB2 hg]
    · simp [hg]
  rw [filter_eq_decision A f gps jets hwf, hd]

theorem any_false_of_forall {α : Type} (p : α → Bool) (l : List α)
    (h : ∀ x ∈ l, p x = false) : l.any p = false := by
  rw [List.any_eq_false]
  intro x hx
  simp [h x hx]

theorem loopBody_neg (A : Arith) (f : pMSSMFilter) (c : Counters) (gp : GenParticle) :
    loopBody A f c { gp with pdgId := -gp.pdgId } = loopBody A f c gp := by
  have hmu : muonBlock f { gp with pdgId := -gp.pdgId } c = muonBlock f gp c := by
    simp [muonBlock, Int.natAbs_neg]
  have hel : electronBlock f { gp with pdgId := -gp.pdgId } = electronBlock f gp := by
    funext d; simp [electronBlock, Int.natAbs_neg]
  have hga : photonBlock f { gp with pdgId := -gp.pdgId } = photonBlock f gp := by
    funext d; simp [photonBlock, Int.natAbs_neg]
  have hch : charginoBlock A { gp with pdgId := -gp.pdgId } = charginoBlock A gp := by
    funext d
    simp [charginoBlock, Int.natAbs_neg, GenParticle.numberOfDaughters, GenParticle.daughter,
      decaylength]
  unfold loopBody
  rw [hmu, hel, hga, hch]

theorem scan_congr (A : Arith) (f : pMSSMFilter) (r : GenParticle → GenParticle → Prop)
    (hr : ∀ a b, r a b → ∀ c, loopBody A f c b = loopBody A f c a)
    (gps gps1 : List GenParticle) (h : List.Forall₂ r gps gps1) (c : Counters) :
    scan A f c gps1 = scan A f c gps := by
  induction h generalizing c with
  | nil => rfl
  | cons hab _ ih =>
    rw [scan_cons, scan_cons, hr _ _ hab c]
    simp only [ih]

theorem loopBody_of_other_species (A : Arith) (f : pMSSMFilter) (c : Counters) (gp : GenParticle)
    (h13 : gp.pdgId.natAbs ≠ 13) (h11 : gp.pdgId.natAbs ≠ 11) (h22 : gp.pdgId.natAbs ≠ 22)
    (hc : gp.pdgId.natAbs ≠ 1000024) : loopBody A f c gp = Flow.next c := by
  simp [loopBody, muonBlock, electronBlock, photonBlock, charginoBlock, Flow.andThen, h13, h11,
    h22, hc]

theorem scan_filter_of_skip (A : Arith) (f : pMSSMFilter) (keep : GenParticle → Bool)
    (hskip : ∀ gp, keep gp = false → ∀ c, loopBody A f c gp = Flow.next c)
    (gps : List GenParticle) (c : Counters) :
    scan A f c (gps.filter keep) = scan A f c gps := by
  induction gps generalizing c with
  | nil => rfl
  | cons gp rest ih =>
    cases hk : keep gp with
    | true => simp only [List.filter_cons, hk, if_true, scan_cons, ih]
    | false => simp [List.filter_cons, hk, scan_cons, hskip gp hk c, Flow.andThen, ih]

theorem afterScan_mono (A : Arith) (f : pMSSMFilter) (c c1 : Counters) (jets : List GenJet)
    (hel : c.looseel_ ≤ c1.looseel_) (hmu : c.loosemu_ ≤ c1.loosemu_)
    (hga : c.loosegamma_ ≤ c1.loosegamma_) (hvl : c.veryloosegamma_ ≤ c1.veryloosegamma_)
    (h : afterScan A f c jets = true) : afterScan A f c1 jets = true := by
  unfold afterScan at h ⊢
  by_cases hA : c.looseel_ + c.loosemu_ + c.loosegamma_ > 1
  · have hA1 : c1.looseel_ + c1.loosemu_ + c1.loosegamma_ > 1 := by omega
    simp [hA1]
  · by_cases hB : c.loosegamma_ > 0 ∧ c.veryloosegamma_ > 0
    · have hB1 : c1.loosegamma_ > 0 ∧ c1.veryloosegamma_ > 0 := ⟨by omega, by omega⟩
      simp [hB1]
    · simp only [hA, hB, if_false] at h
      split_ifs
      · rfl
      · rfl
      · exact h

theorem veryLooseGamma_eq_false (f : pMSSMFilter)
    (h : f.loosegammaPtCut_ ≤ f.veryloosegammaPtCut_) (gp : GenParticle) :
    veryLooseGamma f gp = false := by
  by_cases hv : f.veryloosegammaPtCut_ < gp.pt
  · have hlo : f.loosegammaPtCut_ < gp.pt := lt_of_le_of_lt h hv
    by_cases he : |gp.eta| < f.gammaEtaCut_ <;> simp [veryLooseGamma, hv, hlo, he]
  · simp [veryLooseGamma, hv]

theorem candidate_tally_le (f : pMSSMFilter) (gps : List GenParticle) :
    (tally f gps).looseel_ + (tally f gps).loosemu_ + (tally f gps).loosegamma_ +
      (tally f gps).veryloosegamma_ ≤ gps.countP candidate := by
  induction gps with
  | nil => simp [tally]
  | cons gp rest ih =>
    simp only [tally, List.countP_cons] at ih ⊢
    by_cases hs : gp.status = 1 <;> cases hl : gp.isLastCopy <;>
      by_cases h13 : gp.pdgId.natAbs = 13 <;> by_cases h11 : gp.pdgId.natAbs = 11 <;>
      by_cases h22 : gp.pdgId.natAbs = 22 <;>
      by_cases hlo : f.loosegammaPtCut_ < gp.pt <;>
      by_cases he : |gp.eta| < f.gammaEtaCut_ <;>
      simp [looseEl, looseMu, looseGamma, veryLooseGamma, candidate, survives, hs, hl, h13, h11,
        h22, hlo, he] <;> (try split_ifs) <;> omega

theorem foldl_add_mono (A : Arith)
    (hmono : ∀ a a1 b, 0 ≤ a → a ≤ a1 → 0 ≤ b → A.add a b ≤ A.add a1 b)
    (hgrow : ∀ a b, 0 ≤ a → 0 ≤ b → A.add a 0 = a → a ≤ A.add a b)
    (l : List ℚ) (hl : ∀ x ∈ l, 0 ≤ x) (a a1 : ℚ) (ha : 0 ≤ a) (hrep : A.add a 0 = a)
    (hidem : ∀ x y, A.add (A.add x y) 0 = A.add x y) (h : a ≤ a1) :
    l.foldl A.add a ≤ l.foldl A.add a1 := by
  induction l generalizing a a1 with
  | nil => simpa using h
  | cons x rest ih =>
    have hx : 0 ≤ x := hl x (List.mem_cons_self _ _)
    simp only [List.foldl_cons]
    apply ih (fun y hy => hl y (List.mem_cons_of_mem _ hy))
    · exact le_trans ha (hgrow a x ha hx hrep)
    · exact hidem a x
    · exact hmono a a1 x ha h hx

theorem foldl_add_rep (A : Arith)
    (hgrow : ∀ a b, 0 ≤ a → 0 ≤ b → A.add a 0 = a → a ≤ A.add a b)
    (hidem : ∀ x y, A.add (A.add x y) 0 = A.add x y)
    (l : List ℚ) (hl : ∀ x ∈ l, 0 ≤ x) (a : ℚ) (ha : 0 ≤ a) (hrep : A.add a 0 = a) :
    0 ≤ l.foldl A.add a ∧ A.add (l.foldl A.add a) 0 = l.foldl A.add a := by
  induction l generalizing a with
  | nil => exact ⟨ha, hrep⟩
  | cons x rest ih =>
    have hx : 0 ≤ x := hl x (List.mem_cons_self _ _)
    simp only [List.foldl_cons]
    exact ih (fun y hy => hl y (List.mem_cons_of_mem _ hy)) (A.add a x)
      (le_trans ha (hgrow a x ha hx hrep)) (hidem a x)

theorem HT_insert_le (A : Arith) (f : pMSSMFilter) (hj : 0 ≤ f.jetPtCut_)
    (hmono : ∀ a a1 b, 0 ≤ a → a ≤ a1 → 0 ≤ b → A.add a b ≤ A.add a1 b)
    (hgrow : ∀ a b, 0 ≤ a → 0 ≤ b → A.add a 0 = a → a ≤ A.add a b)
    (hzero : A.add 0 0 = 0)
    (hidem : ∀ x y, A.add (A.add x y) 0 = A.add x y)
    (l1 l2 : List GenJet) (j : GenJet) :
    HT A f (l1 ++ l2) ≤ HT A f (l1 ++ j :: l2) := by
  have hsel : ∀ (l : List GenJet), ∀ x ∈ (l.filter (jetSelected f)).map GenJet.pt, 0 ≤ x := by
    intro l x hx
    simp only [List.mem_map, List.mem_filter, jetSelected, decide_eq_true_eq] at hx
    obtain ⟨g, ⟨_, hg⟩, rfl⟩ := hx
    exact le_of_lt (lt_of_le_of_lt hj hg.1)
  unfold HT
  cases hjs : jetSelected f j with
  | false => simp [List.filter_append, List.filter_cons, hjs]
  | true =>
    simp only [List.filter_append, List.filter_cons, hjs, if_true, List.map_append,
      List.map_cons, List.foldl_append, List.foldl_cons]
    obtain ⟨h0, hrep⟩ := foldl_add_rep A hgrow hidem _ (hsel l1) 0 le_rfl hzero
    have hpt : 0 ≤ j.pt := by
      have := hjs
      simp only [jetSelected, decide_eq_true_eq] at this
      exact le_of_lt (lt_of_le_of_lt hj this.1)
    exact foldl_add_mono A hmono hgrow _ (hsel l2) _ _ h0 hrep hidem (hgrow _ _ h0 hpt hrep)

theorem scan_of_none_survive (A : Arith) (f : pMSSMFilter) (gps : List GenParticle) (c : Counters)
    (h : ∀ gp ∈ gps, survives gp = false) : scan A f c gps = Flow.next c := by
  induction gps with
  | nil => rfl
  | cons gp rest ih =>
    rw [scan_cons, loopBody_of_not_survives A f c gp (h gp (List.mem_cons_self _ _))]
    simp only [Flow.andThen]
    exact ih (fun q hq => h q (List.mem_cons_of_mem _ hq))

/-! ## The `ieee` arithmetic on the sample data -/

theorem ieee_add_100 : ieee.add 0 100 = 100 := by
  simpa using ieee_add_intCast 0 100 100 (by norm_num) (by norm_num)

theorem ieee_add_100_50 : ieee.add 100 50 = 150 := by
  simpa using ieee_add_intCast 100 50 150 (by norm_num) (by norm_num)

theorem ieee_add_100_35 : ieee.add 100 35 = 135 := by
  simpa using ieee_add_intCast 100 35 135 (by norm_num) (by norm_num)

theorem ieee_add_135_50 : ieee.add 135 50 = 185 := by
  simpa using ieee_add_intCast 135 50 185 (by norm_num) (by norm_num)

/-! ## Claims -/

/-- C2: an event containing a surviving particle that passes the tight test of its species
(13, 11 or 22) is accepted, whatever follows it in the collection, whatever the jets (also
none) and the other thresholds are; the particles before it are well-formed. -/
theorem C2_tight_particle_accepts (A : Arith) (f : pMSSMFilter) (pre suf : List GenParticle)
    (gp : GenParticle) (jets : List GenJet) (hwf : WellFormed pre)
    (hs : gp.status = 1) (hl : gp.isLastCopy = true)
    (ht : (gp.pdgId.natAbs = 13 ∧ gp.pt > f.muPtCut_ ∧ |gp.eta| < f.muEtaCut_) ∨
      (gp.pdgId.natAbs = 11 ∧ gp.pt > f.elPtCut_ ∧ |gp.eta| < f.elEtaCut_) ∨
      (gp.pdgId.natAbs = 22 ∧ gp.pt > f.gammaPtCut_ ∧ |gp.eta| < f.gammaEtaCut_)) :
    f.filter A (pre ++ gp :: suf) jets = some true := by
  apply filter_accept_of_immediate A f pre suf gp jets hwf
  rcases ht with ⟨h1, h2, h3⟩ | ⟨h1, h2, h3⟩ | ⟨h1, h2, h3⟩ <;>
    simp [immediateAccept, survives, tight, hs, hl, h1, h2, h3]

theorem C2_witness :
    sampleFilter.filter ieee ([particle 11 1] ++ particle (-13) 20 :: [chargino [none]]) [] =
      some true :=
  C2_tight_particle_accepts ieee sampleFilter [particle 11 1] [chargino [none]] (particle (-13) 20) []
    (by decide) (by decide) (by decide)
    (Or.inl (by norm_num [sampleFilter, particle]))

/-- C3: particles whose status is not 1 or whose last-copy flag is false contribute nothing:
`filter` gives the same result on the collection with all of them removed. -/
theorem C3_nonsurviving_ignored (A : Arith) (f : pMSSMFilter) (gps : List GenParticle)
    (jets : List GenJet) :
    f.filter A gps jets =
      f.filter A (gps.filter (fun gp => decide (gp.status = 1) && gp.isLastCopy)) jets := by
  have h := scan_filter_survives A f gps Counters.zero
  have hfun : (fun gp : GenParticle => decide (gp.status = 1) && gp.isLastCopy) = survives := by
    funext gp; rfl
  unfold pMSSMFilter.filter
  rw [hfun, h]

/-- C5: a well-formed event with two distinct surviving particles, each passing the loose test
of its species (13, 11 or 22), is accepted whatever the jets are, also with no jet at all. -/
theorem C5_two_loose_accept (A : Arith) (f : pMSSMFilter) (l1 l2 l3 : List GenParticle)
    (p q : GenParticle) (jets : List GenJet)
    (hwf : WellFormed (l1 ++ p :: (l2 ++ q :: l3)))
    (hp : looseMu f p = true ∨ looseEl f p = true ∨ looseGamma f p = true)
    (hq : looseMu f q = true ∨ looseEl f q = true ∨ looseGamma f q = true) :
    f.filter A (l1 ++ p :: (l2 ++ q :: l3)) jets = some true := by
  rw [filter_eq_decision A f _ jets hwf]
  have hA : (tally f (l1 ++ p :: (l2 ++ q :: l3))).looseel_ +
      (tally f (l1 ++ p :: (l2 ++ q :: l3))).loosemu_ +
      (tally f (l1 ++ p :: (l2 ++ q :: l3))).loosegamma_ > 1 := by
    simp only [tally, List.countP_append, List.countP_cons]
    rcases hp with hp | hp | hp <;> rcases hq with hq | hq | hq <;> simp [hp, hq] <;> omega
  simp [decision, hA]

theorem C5_witness :
    sampleFilter.filter ieee ([] ++ particle 13 4 :: ([] ++ particle (-13) 6 :: [])) [] =
      some true :=
  C5_two_loose_accept ieee sampleFilter [] [] [] (particle 13 4) (particle (-13) 6) []
    (by decide)
    (Or.inl (by norm_num [looseMu, survives, sampleFilter, particle]))
    (Or.inl (by norm_num [looseMu, survives, sampleFilter, particle]))

/-- C6: a surviving photon that fails the tight test falls through with the electron and muon
counters unchanged and at most one of the loose-photon and very-loose-photon counters raised,
by one; when its `pt` is above both `loosegammaPtCut` and `veryloosegammaPtCut` and its
`|eta|` is below `gammaEtaCut` it raises the loose-photon counter alone; and after a completed
pass the two photon counters together are at most the number of surviving photons. -/
theorem C6_photon_tiers_exclusive (A : Arith) (f : pMSSMFilter) :
    (∀ (c : Counters) (gp : GenParticle), gp.status = 1 → gp.isLastCopy = true →
      gp.pdgId.natAbs = 22 → ¬ (gp.pt > f.gammaPtCut_ ∧ |gp.eta| < f.gammaEtaCut_) →
      loopBody A f c gp = Flow.next c ∨
      loopBody A f c gp = Flow.next { c with loosegamma_ := c.loosegamma_ + 1 } ∨
      loopBody A f c gp = Flow.next { c with veryloosegamma_ := c.veryloosegamma_ + 1 }) ∧
    (∀ (c : Counters) (gp : GenParticle), gp.status = 1 → gp.isLastCopy = true →
      gp.pdgId.natAbs = 22 → ¬ gp.pt > f.gammaPtCut_ → gp.pt > f.loosegammaPtCut_ →
      gp.pt > f.veryloosegammaPtCut_ → |gp.eta| < f.gammaEtaCut_ →
      loopBody A f c gp = Flow.next { c with loosegamma_ := c.loosegamma_ + 1 }) ∧
    (∀ (gps : List GenParticle) (c : Counters), scan A f Counters.zero gps = Flow.next c →
      c.loosegamma_ + c.veryloosegamma_ ≤
        gps.countP (fun gp => decide (gp.status = 1) && gp.isLastCopy &&
          decide (gp.pdgId.natAbs = 22))) := by
  refine ⟨?_, ?_, ?_⟩
  · intro c gp hs hl h22 ht
    rcases not_and_or.mp ht with ht1 | he
    · have ht2 : ¬ f.gammaPtCut_ < gp.pt := ht1
      by_cases hlo : f.loosegammaPtCut_ < gp.pt <;>
        by_cases hv : f.veryloosegammaPtCut_ < gp.pt <;>
        by_cases he : |gp.eta| < f.gammaEtaCut_ <;>
        simp [loopBody, hs, hl, h22, ht2, hlo, hv, he, muonBlock, electronBlock, photonBlock,
          charginoBlock, Flow.andThen]
    · simp [loopBody, hs, hl, h22, he, muonBlock, electronBlock, photonBlock,
        charginoBlock, Flow.andThen]
  · intro c gp hs hl h22 ht hlo hv he
    have ht1 : ¬ f.gammaPtCut_ < gp.pt := ht
    have hlo1 : f.loosegammaPtCut_ < gp.pt := hlo
    simp [loopBody, hs, hl, h22, ht1, hlo1, he, muonBlock, electronBlock, photonBlock,
      charginoBlock, Flow.andThen]
  · intro gps c h
    obtain ⟨_, hc⟩ := scan_next_eq A f gps Counters.zero c h
    rw [hc, Counters.zero_add]
    exact photon_tally_le f gps

theorem C6_witness :
    loopBody ieee sampleFilter Counters.zero (particle 22 40) =
        Flow.next { Counters.zero with loosegamma_ := Counters.zero.loosegamma_ + 1 } ∧
      (loopBody ieee sampleFilter Counters.zero (particle 22 20) = Flow.next Counters.zero ∨
        loopBody ieee sampleFilter Counters.zero (particle 22 20) =
          Flow.next { Counters.zero with loosegamma_ := Counters.zero.loosegamma_ + 1 } ∨
        loopBody ieee sampleFilter Counters.zero (particle 22 20) =
          Flow.next { Counters.zero with
            veryloosegamma_ := Counters.zero.veryloosegamma_ + 1 }) :=
  ⟨(C6_photon_tiers_exclusive ieee sampleFilter).2.1 Counters.zero (particle 22 40) (by decide)
      (by decide) (by decide) (by norm_num [sampleFilter, particle])
      (by norm_num [sampleFilter, particle]) (by norm_num [sampleFilter, particle])
      (by norm_num [sampleFilter, particle]),
    (C6_photon_tiers_exclusive ieee sampleFilter).1 Counters.zero (particle 22 20) (by decide)
      (by decide) (by decide) (by norm_num [sampleFilter, particle])⟩

/-- C7: a well-formed event containing a surviving photon that passes the loose test and a
surviving photon that fails the loose test but passes the very-loose test is accepted,
whatever the jets and the other particles are (Rule B). -/
theorem C7_loose_and_very_loose_photon (A : Arith) (f : pMSSMFilter) (gps : List GenParticle)
    (p q : GenParticle) (jets : List GenJet) (hwf : WellFormed gps)
    (hp : p ∈ gps) (hq : q ∈ gps)
    (hps : p.status = 1 ∧ p.isLastCopy = true ∧ p.pdgId.natAbs = 22)
    (hqs : q.status = 1 ∧ q.isLastCopy = true ∧ q.pdgId.natAbs = 22)
    (hpl : p.pt > f.loosegammaPtCut_ ∧ |p.eta| < f.gammaEtaCut_)
    (hql : ¬ (q.pt > f.loosegammaPtCut_ ∧ |q.eta| < f.gammaEtaCut_))
    (hqv : q.pt > f.veryloosegammaPtCut_ ∧ |q.eta| < f.gammaEtaCut_) :
    f.filter A gps jets = some true := by
  rw [filter_eq_decision A f gps jets hwf]
  have h1 : (tally f gps).loosegamma_ > 0 := by
    simp only [tally]
    exact List.countP_pos_iff.mpr ⟨p, hp, by simp [looseGamma, survives, hps, hpl]⟩
  have h2 : (tally f gps).veryloosegamma_ > 0 := by
    simp only [tally]
    have he : |q.eta| < f.gammaEtaCut_ := hqv.2
    have hv : f.veryloosegammaPtCut_ < q.pt := hqv.1
    have hlo : ¬ f.loosegammaPtCut_ < q.pt := fun h => hql ⟨h, he⟩
    exact List.countP_pos_iff.mpr ⟨q, hq, by simp [veryLooseGamma, survives, hqs, hlo, hv, he]⟩
  simp [decision, h1, h2]

theorem C7_witness :
    sampleFilter.filter ieee [particle 22 20, particle 22 40] [] = some true :=
  C7_loose_and_very_loose_photon ieee sampleFilter [particle 22 20, particle 22 40]
    (particle 22 40) (particle 22 20) [] (by decide) (by simp) (by simp)
    (by decide) (by decide) (by norm_num [sampleFilter, particle])
    (by norm_num [sampleFilter, particle]) (by norm_num [sampleFilter, particle])

/-- C8: an event containing a surviving particle of species 1000024 with zero daughters is
accepted, whatever the thresholds, its own kinematics and vertex, the particles after it and
the jets are; the particles before it are well-formed. -/
theorem C8_stable_chargino_accepts (A : Arith) (f : pMSSMFilter) (pre suf : List GenParticle)
    (gp : GenParticle) (jets : List GenJet) (hwf : WellFormed pre)
    (hs : gp.status = 1) (hl : gp.isLastCopy = true) (hid : gp.pdgId.natAbs = 1000024)
    (hn : gp.numberOfDaughters = 0) :
    f.filter A (pre ++ gp :: suf) jets = some true := by
  apply filter_accept_of_immediate A f pre suf gp jets hwf
  simp [immediateAccept, survives, displaced, hs, hl, hid, hn]

theorem C8_witness :
    sampleFilter.filter ieee ([particle 13 4] ++ chargino [] :: [chargino [none]]) [] = some true :=
  C8_stable_chargino_accepts ieee sampleFilter [particle 13 4] [chargino [none]] (chargino []) []
    (by decide) (by decide) (by decide) (by decide) (by decide)

/-- C10: on a well-formed particle collection (every particle carries its own first-daughter
vertex) `filter` returns the same result on every permutation of the collection. -/
theorem C10_particle_order_irrelevant (A : Arith) (f : pMSSMFilter) (gps gps1 : List GenParticle)
    (jets : List GenJet) (hperm : gps.Perm gps1) (hwf : WellFormed gps) :
    f.filter A gps jets = f.filter A gps1 jets := by
  have hwf1 : WellFormed gps1 := fun gp hgp => hwf gp (hperm.mem_iff.mpr hgp)
  rw [filter_eq_decision A f gps jets hwf, filter_eq_decision A f gps1 jets hwf1,
    decision_perm A f gps gps1 jets hperm]

theorem C10_witness :
    sampleFilter.filter ieee [particle 13 4, particle 22 60, chargino [some ⟨3, 4⟩]] [] =
      sampleFilter.filter ieee [chargino [some ⟨3, 4⟩], particle 13 4, particle 22 60] [] :=
  C10_particle_order_irrelevant ieee sampleFilter
    [particle 13 4, particle 22 60, chargino [some ⟨3, 4⟩]]
    [chargino [some ⟨3, 4⟩], particle 13 4, particle 22 60] []
    (by decide) (by decide)

/-- C12, as stated, fails: with the photon tight cut (10) below the loose cut (30), a single
surviving photon of `pt` 20 fails the loose test, there is no muon, electron or 1000024
particle, and yet `filter` returns true with no jet at all, while `HT > genHTcut` is false. -/
theorem C12_counterexample :
    (∀ gp ∈ [particle 22 20], gp.status = 1 → gp.isLastCopy = true →
      gp.pdgId.natAbs ≠ 13 ∧ gp.pdgId.natAbs ≠ 11 ∧ gp.pdgId.natAbs ≠ 1000024) ∧
    (∀ gp ∈ [particle 22 20], gp.status = 1 → gp.isLastCopy = true → gp.pdgId.natAbs = 22 →
      ¬ (gp.pt > tightBelowLoose.loosegammaPtCut_ ∧ |gp.eta| < tightBelowLoose.gammaEtaCut_)) ∧
    tightBelowLoose.filter ieee [particle 22 20] [] = some true ∧
    ¬ (HT ieee tightBelowLoose [] > tightBelowLoose.genHTcut_) := by
  refine ⟨?_, ?_, ?_, ?_⟩
  · intro gp hgp
    simp only [List.mem_singleton] at hgp
    subst hgp
    intro _ _
    decide
  · intro gp hgp
    simp only [List.mem_singleton] at hgp
    subst hgp
    intro _ _ _
    norm_num [tightBelowLoose, particle]
  · norm_num [pMSSMFilter.filter, scan, loopBody, muonBlock, electronBlock, photonBlock,
      charginoBlock, Flow.andThen, tightBelowLoose, particle, Counters.zero]
  · norm_num [HT, tightBelowLoose]

/-- C12 (amended): when there is no surviving muon, electron or 1000024 particle and every
surviving photon fails both the tight and the loose test, the particle pass completes with
the three Rule A counters at zero, however many very-loose photons were counted, and `filter`
returns exactly `HT > genHTcut`. -/
theorem C12_very_loose_outside_rule_A (A : Arith) (f : pMSSMFilter) (gps : List GenParticle)
    (jets : List GenJet)
    (hsp : ∀ gp ∈ gps, gp.status = 1 → gp.isLastCopy = true →
      gp.pdgId.natAbs ≠ 13 ∧ gp.pdgId.natAbs ≠ 11 ∧ gp.pdgId.natAbs ≠ 1000024)
    (hlo : ∀ gp ∈ gps, gp.status = 1 → gp.isLastCopy = true → gp.pdgId.natAbs = 22 →
      ¬ (gp.pt > f.loosegammaPtCut_ ∧ |gp.eta| < f.gammaEtaCut_))
    (hti : ∀ gp ∈ gps, gp.status = 1 → gp.isLastCopy = true → gp.pdgId.natAbs = 22 →
      ¬ (gp.pt > f.gammaPtCut_ ∧ |gp.eta| < f.gammaEtaCut_)) :
    (∃ c, scan A f Counters.zero gps = Flow.next c ∧
      c.looseel_ + c.loosemu_ + c.loosegamma_ = 0 ∧
      c.veryloosegamma_ = gps.countP (veryLooseGamma f)) ∧
    f.filter A gps jets = some (decide (HT A f jets > f.genHTcut_)) := by
  have hwf : WellFormed gps := by
    intro gp hgp
    by_cases hs : gp.status = 1
    · cases hl : gp.isLastCopy with
      | false => simp [resolvable, survives, hl]
      | true => simp [resolvable, (hsp gp hgp hs hl).2.2]
    · simp [resolvable, survives, hs]
  have hany : gps.any (immediateAccept A f) = false := by
    apply any_false_of_forall
    intro gp hgp
    by_cases hs : gp.status = 1
    · cases hl : gp.isLastCopy with
      | false => simp [immediateAccept, survives, hl]
      | true =>
        obtain ⟨h13, h11, hc⟩ := hsp gp hgp hs hl
        by_cases h22 : gp.pdgId.natAbs = 22
        · have ht := hti gp hgp hs hl h22
          simp only [gt_iff_lt] at ht
          simp [immediateAccept, tight, displaced, h22, ht]
        · simp [immediateAccept, tight, displaced, h13, h11, h22, hc]
    · simp [immediateAccept, survives, hs]
  have hel : gps.countP (looseEl f) = 0 := by
    rw [List.countP_eq_zero]
    intro gp hgp
    by_cases hs : gp.status = 1
    · cases hl : gp.isLastCopy with
      | false => simp [looseEl, survives, hl]
      | true => simp [looseEl, (hsp gp hgp hs hl).2.1]
    · simp [looseEl, survives, hs]
  have hmu : gps.countP (looseMu f) = 0 := by
    rw [List.countP_eq_zero]
    intro gp hgp
    by_cases hs : gp.status = 1
    · cases hl : gp.isLastCopy with
      | false => simp [looseMu, survives, hl]
      | true => simp [looseMu, (hsp gp hgp hs hl).1]
    · simp [looseMu, survives, hs]
  have hga : gps.countP (looseGamma f) = 0 := by
    rw [List.countP_eq_zero]
    intro gp hgp
    by_cases hs : gp.status = 1
    · cases hl : gp.isLastCopy with
      | false => simp [looseGamma, survives, hl]
      | true =>
        by_cases h22 : gp.pdgId.natAbs = 22
        · have hl2 := hlo gp hgp hs hl h22
          simp only [gt_iff_lt] at hl2
          simp [looseGamma, hl2]
        · simp [looseGamma, h22]
    · simp [looseGamma, survives, hs]
  refine ⟨⟨tally f gps, ?_, ?_, ?_⟩, ?_⟩
  · rw [scan_eq A f gps hwf, hany, Counters.zero_add]
    simp
  · simp [tally, hel, hmu, hga]
  · simp [tally]
  · apply filter_eq_HT A f gps jets hwf hany
    · simp [tally, hel, hmu, hga]
    · simp [tally, hga]

theorem C12_witness :
    (∃ c, scan ieee sampleFilter Counters.zero [particle 22 20, particle 22 25, particle 211 90] =
        Flow.next c ∧
      c.looseel_ + c.loosemu_ + c.loosegamma_ = 0 ∧
      c.veryloosegamma_ =
        [particle 22 20, particle 22 25, particle 211 90].countP (veryLooseGamma sampleFilter)) ∧
    sampleFilter.filter ieee [particle 22 20, particle 22 25, particle 211 90] [⟨150, 0⟩] =
      some (decide (HT ieee sampleFilter [⟨150, 0⟩] > sampleFilter.genHTcut_)) :=
  C12_very_loose_outside_rule_A ieee sampleFilter [particle 22 20, particle 22 25, particle 211 90]
    [⟨150, 0⟩]
    (by
      intro gp hgp
      simp only [List.mem_cons, List.mem_singleton, List.not_mem_nil, or_false] at hgp
      rcases hgp with rfl | rfl | rfl <;> intro _ _ <;> decide)
    (by
      intro gp hgp
      simp only [List.mem_cons, List.mem_singleton, List.not_mem_nil, or_false] at hgp
      rcases hgp with rfl | rfl | rfl <;> intro _ _ h <;>
        first
        | exact absurd h (by decide)
        | norm_num [sampleFilter, particle])
    (by
      intro gp hgp
      simp only [List.mem_cons, List.mem_singleton, List.not_mem_nil, or_false] at hgp
      rcases hgp with rfl | rfl | rfl <;> intro _ _ h <;>
        first
        | exact absurd h (by decide)
        | norm_num [sampleFilter, particle])

/-- C13: the species is the absolute value of the identity: negating `pdgId` on any selection
of the particles of an event leaves the result of `filter` unchanged. -/
theorem C13_identity_sign_irrelevant (A : Arith) (f : pMSSMFilter) (gps gps1 : List GenParticle)
    (jets : List GenJet)
    (h : List.Forall₂ (fun a b => b = a ∨ b = { a with pdgId := -a.pdgId }) gps gps1) :
    f.filter A gps1 jets = f.filter A gps jets := by
  unfold pMSSMFilter.filter
  rw [scan_congr A f _ _ gps gps1 h]
  intro a b hab c
  rcases hab with rfl | rfl
  · rfl
  · exact loopBody_neg A f c a

theorem C13_witness :
    sampleFilter.filter ieee [particle (-13) 4, particle 11 7, particle (-1000024) 1] [] =
      sampleFilter.filter ieee [particle 13 4, particle 11 7, particle 1000024 1] [] :=
  C13_identity_sign_irrelevant ieee sampleFilter
    [particle 13 4, particle 11 7, particle 1000024 1]
    [particle (-13) 4, particle 11 7, particle (-1000024) 1] []
    (List.Forall₂.cons (Or.inr rfl)
      (List.Forall₂.cons (Or.inl rfl) (List.Forall₂.cons (Or.inr rfl) List.Forall₂.nil)))

/-- C14: a particle whose species is none of 13, 11, 22 and 1000024 contributes nothing, also
when it has status 1 and is a last copy: `filter` gives the same result on the collection
with all such particles removed. -/
theorem C14_other_species_ignored (A : Arith) (f : pMSSMFilter) (gps : List GenParticle)
    (jets : List GenJet) :
    f.filter A gps jets =
      f.filter A
        (gps.filter (fun gp =>
          decide (gp.pdgId.natAbs = 13) || decide (gp.pdgId.natAbs = 11) ||
            decide (gp.pdgId.natAbs = 22) || decide (gp.pdgId.natAbs = 1000024)))
        jets := by
  unfold pMSSMFilter.filter
  rw [scan_filter_of_skip A f _ _ gps Counters.zero]
  intro gp hk c
  simp only [Bool.or_eq_false_iff, decide_eq_false_iff_not] at hk
  exact loopBody_of_other_species A f c gp hk.1.1.1 hk.1.1.2 hk.1.2 hk.2

/-- C15: on a well-formed particle collection `filter` never takes the failing daughter
lookup (neither the scan nor `filter` ends in the fault) and returns exactly one boolean:
accept or reject. -/
theorem C15_total_on_well_formed (A : Arith) (f : pMSSMFilter) (gps : List GenParticle)
    (jets : List GenJet) (hwf : WellFormed gps) :
    scan A f Counters.zero gps ≠ Flow.fault ∧ f.filter A gps jets ≠ none ∧
      (∃! b : Bool, f.filter A gps jets = some b) ∧
      (f.filter A gps jets = some true ∨ f.filter A gps jets = some false) := by
  have h := filter_eq_decision A f gps jets hwf
  refine ⟨?_, ?_, ?_, ?_⟩
  · rw [scan_eq A f gps hwf]
    split_ifs <;> simp
  · simp [h]
  · exact ⟨decision A f gps jets, h, fun b hb => by rw [h] at hb; exact (Option.some.inj hb).symm⟩
  · rw [h]
    cases decision A f gps jets <;> simp

theorem C15_witness :
    scan ieee sampleFilter Counters.zero [particle 13 4, chargino [some ⟨3, 4⟩, none]] ≠
        Flow.fault ∧
      sampleFilter.filter ieee [particle 13 4, chargino [some ⟨3, 4⟩, none]] [⟨150, 0⟩] ≠ none ∧
      (∃! b : Bool,
        sampleFilter.filter ieee [particle 13 4, chargino [some ⟨3, 4⟩, none]] [⟨150, 0⟩] =
          some b) ∧
      (sampleFilter.filter ieee [particle 13 4, chargino [some ⟨3, 4⟩, none]] [⟨150, 0⟩] =
          some true ∨
        sampleFilter.filter ieee [particle 13 4, chargino [some ⟨3, 4⟩, none]] [⟨150, 0⟩] =
          some false) :=
  C15_total_on_well_formed ieee sampleFilter [particle 13 4, chargino [some ⟨3, 4⟩, none]]
    [⟨150, 0⟩] (by decide)

/-- C16: when the particles before `p` raise no accept (the scan falls through them) and `p`
triggers an immediate accept, `filter` returns true whatever the particles after `p` and the
jets are, also when a later particle has an unresolvable daughter reference. -/
theorem C16_accept_short_circuits (A : Arith) (f : pMSSMFilter) (pre suf : List GenParticle)
    (p : GenParticle) (jets : List GenJet) (c : Counters)
    (hpre : scan A f Counters.zero pre = Flow.next c)
    (hp : immediateAccept A f p = true) :
    f.filter A (pre ++ p :: suf) jets = some true ∧
      scan A f Counters.zero (pre ++ p :: suf) = Flow.returned true := by
  have hscan : scan A f Counters.zero (pre ++ p :: suf) = Flow.returned true := by
    rw [scan_insert, hpre]
    simp [Flow.andThen, loopBody_of_immediate A f c p hp]
  refine ⟨?_, hscan⟩
  unfold pMSSMFilter.filter
  rw [hscan]

theorem C16_witness :
    sampleFilter.filter ieee ([particle 13 4] ++ particle 11 20 :: [chargino [none]]) [] =
        some true ∧
      scan ieee sampleFilter Counters.zero ([particle 13 4] ++ particle 11 20 :: [chargino [none]]) =
        Flow.returned true :=
  C16_accept_short_circuits ieee sampleFilter [particle 13 4] [chargino [none]] (particle 11 20) []
    { Counters.zero with loosemu_ := 1 }
    (by
      norm_num [scan, loopBody, muonBlock, electronBlock, photonBlock, charginoBlock,
        Flow.andThen, sampleFilter, particle, Counters.zero])
    (by norm_num [immediateAccept, survives, tight, sampleFilter, particle])

/-- C17: the decision is monotone in the particle collection: when `filter` accepts an event,
it accepts the event enlarged by one well-formed particle inserted at any position. -/
theorem C17_monotone_in_particles (A : Arith) (f : pMSSMFilter) (l1 l2 : List GenParticle)
    (p : GenParticle) (jets : List GenJet) (hp : resolvable p = true)
    (h : f.filter A (l1 ++ l2) jets = some true) :
    f.filter A (l1 ++ p :: l2) jets = some true := by
  unfold pMSSMFilter.filter at h ⊢
  rw [scan_append] at h
  rw [scan_insert]
  cases h1 : scan A f Counters.zero l1 with
  | returned b => simpa [h1, Flow.andThen] using h
  | fault => simp [h1, Flow.andThen] at h
  | next c1 =>
    simp only [h1, Flow.andThen] at h ⊢
    by_cases hi : immediateAccept A f p = true
    · simp [loopBody_eq A f c1 p hp, hi]
    · have hbody : loopBody A f c1 p = Flow.next (c1.add (tally f [p])) := by
        rw [loopBody_eq A f c1 p hp]
        simp [hi]
      rw [scan_from] at h
      rw [hbody]
      simp only []
      rw [scan_from A f l2 (c1.add (tally f [p]))]
      cases h2 : scan A f Counters.zero l2 with
      | returned b => simpa [h2, Flow.shift] using h
      | fault => simp [h2, Flow.shift] at h
      | next d =>
        simp only [h2, Flow.shift, Option.some.injEq] at h ⊢
        apply afterScan_mono A f (c1.add d) _ jets _ _ _ _ h <;>
          simp [Counters.add]

theorem C17_witness :
    sampleFilter.filter ieee ([particle 13 4] ++ particle (-11) 3 :: [particle 11 7]) [] =
      some true :=
  C17_monotone_in_particles ieee sampleFilter [particle 13 4] [particle 11 7] (particle (-11) 3) []
    (by decide)
    (by
      norm_num [pMSSMFilter.filter, scan, loopBody, muonBlock, electronBlock, photonBlock,
        charginoBlock, Flow.andThen, afterScan, sampleFilter, particle, Counters.zero])

/-- C18: when `veryloosegammaPtCut >= loosegammaPtCut`, the very-loose-photon counter is zero
after every completed particle pass, so Rule B never fires and `filter` agrees with the engine
that has Rule B removed; conversely a configuration with `veryloosegammaPtCut` below
`loosegammaPtCut` exists on which the two engines differ. -/
theorem C18_very_loose_tier_inert (A : Arith) (f : pMSSMFilter)
    (h : f.loosegammaPtCut_ ≤ f.veryloosegammaPtCut_) :
    (∀ gps c, scan A f Counters.zero gps = Flow.next c → c.veryloosegamma_ = 0) ∧
    (∀ gps jets, f.filter A gps jets = filterWithoutRuleB A f gps jets) ∧
    (∃ (g : pMSSMFilter) (gps : List GenParticle) (jets : List GenJet),
      g.veryloosegammaPtCut_ < g.loosegammaPtCut_ ∧
        g.filter A gps jets ≠ filterWithoutRuleB A g gps jets) := by
  have hzero : ∀ gps c, scan A f Counters.zero gps = Flow.next c → c.veryloosegamma_ = 0 := by
    intro gps c hc
    obtain ⟨_, hc1⟩ := scan_next_eq A f gps Counters.zero c hc
    rw [hc1, Counters.zero_add]
    simp only [tally]
    rw [List.countP_eq_zero]
    intro gp _
    simp [veryLooseGamma_eq_false f h gp]
  refine ⟨hzero, ?_, ?_⟩
  · intro gps jets
    unfold pMSSMFilter.filter filterWithoutRuleB
    cases hs : scan A f Counters.zero gps with
    | returned b => rfl
    | fault => rfl
    | next c => simp [afterScan, afterScanWithoutRuleB, hzero gps c hs]
  · refine ⟨sampleFilter, [particle 22 20, particle 22 40], [], ?_, ?_⟩
    · norm_num [sampleFilter]
    · norm_num [pMSSMFilter.filter, filterWithoutRuleB, scan, loopBody, muonBlock,
        electronBlock, photonBlock, charginoBlock, Flow.andThen, afterScan,
        afterScanWithoutRuleB, genHT, sampleFilter, particle, Counters.zero]

theorem C18_witness :
    (∀ gps c, scan ieee { sampleFilter with veryloosegammaPtCut_ := 35 } Counters.zero gps =
        Flow.next c → c.veryloosegamma_ = 0) ∧
    (∀ gps jets,
      pMSSMFilter.filter { sampleFilter with veryloosegammaPtCut_ := 35 } ieee gps jets =
        filterWithoutRuleB ieee { sampleFilter with veryloosegammaPtCut_ := 35 } gps jets) ∧
    (∃ (g : pMSSMFilter) (gps : List GenParticle) (jets : List GenJet),
      g.veryloosegammaPtCut_ < g.loosegammaPtCut_ ∧
        g.filter ieee gps jets ≠ filterWithoutRuleB ieee g gps jets) :=
  C18_very_loose_tier_inert ieee { sampleFilter with veryloosegammaPtCut_ := 35 }
    (by norm_num [sampleFilter])

/-- C19: with at most one surviving particle of species 11, 13 or 22, neither Rule A nor
Rule B fires, on the counts over the whole collection as on the counters a completed particle
pass leaves; when moreover no surviving particle passes a tight test and no surviving particle
has species 1000024, `filter` returns exactly `HT > genHTcut`. -/
theorem C19_single_candidate_no_veto (A : Arith) (f : pMSSMFilter) (gps : List GenParticle)
    (jets : List GenJet)
    (hone : gps.countP (fun gp => decide (gp.status = 1) && gp.isLastCopy &&
      (decide (gp.pdgId.natAbs = 11) || decide (gp.pdgId.natAbs = 13) ||
        decide (gp.pdgId.natAbs = 22))) ≤ 1) :
    (¬ ((tally f gps).looseel_ + (tally f gps).loosemu_ + (tally f gps).loosegamma_ > 1) ∧
      ¬ ((tally f gps).loosegamma_ > 0 ∧ (tally f gps).veryloosegamma_ > 0)) ∧
    (∀ c, scan A f Counters.zero gps = Flow.next c →
      ¬ (c.looseel_ + c.loosemu_ + c.loosegamma_ > 1) ∧
        ¬ (c.loosegamma_ > 0 ∧ c.veryloosegamma_ > 0)) ∧
    ((∀ gp ∈ gps, gp.status = 1 → gp.isLastCopy = true → tight f gp = false) →
      (∀ gp ∈ gps, gp.status = 1 → gp.isLastCopy = true → gp.pdgId.natAbs ≠ 1000024) →
      f.filter A gps jets = some (decide (HT A f jets > f.genHTcut_))) := by
  have hle := candidate_tally_le f gps
  have hone1 : gps.countP candidate ≤ 1 := hone
  refine ⟨?_, ?_, ?_⟩
  · constructor <;> omega
  · intro c hc
    obtain ⟨_, hc1⟩ := scan_next_eq A f gps Counters.zero c hc
    rw [hc1, Counters.zero_add]
    constructor <;> omega
  · intro ht hch
    have hwf : WellFormed gps := by
      intro gp hgp
      by_cases hs : gp.status = 1
      · cases hl : gp.isLastCopy with
        | false => simp [resolvable, survives, hl]
        | true => simp [resolvable, hch gp hgp hs hl]
      · simp [resolvable, survives, hs]
    have hany : gps.any (immediateAccept A f) = false := by
      apply any_false_of_forall
      intro gp hgp
      by_cases hs : gp.status = 1
      · cases hl : gp.isLastCopy with
        | false => simp [immediateAccept, survives, hl]
        | true => simp [immediateAccept, displaced, ht gp hgp hs hl, hch gp hgp hs hl]
      · simp [immediateAccept, survives, hs]
    apply filter_eq_HT A f gps jets hwf hany <;> omega

theorem C19_witness :
    sampleFilter.filter ieee [particle 22 40, particle 211 90] [⟨150, 0⟩] =
      some (decide (HT ieee sampleFilter [⟨150, 0⟩] > sampleFilter.genHTcut_)) :=
  (C19_single_candidate_no_veto ieee sampleFilter [particle 22 40, particle 211 90] [⟨150, 0⟩]
    (by decide)).2.2
    (by
      intro gp hgp
      simp only [List.mem_cons, List.mem_singleton, List.not_mem_nil, or_false] at hgp
      rcases hgp with rfl | rfl <;> intro _ _ <;> norm_num [tight, sampleFilter, particle])
    (by
      intro gp hgp
      simp only [List.mem_cons, List.mem_singleton, List.not_mem_nil, or_false] at hgp
      rcases hgp with rfl | rfl <;> intro _ _ <;> decide)

/-- C20: with `jetPtCut >= 0` the decision is monotone in the jet collection: HT does not
decrease when a jet is added, and an event accepted by `filter` stays accepted; with
`genHTcut >= 0` an event without surviving particles and without selected jets is rejected.
The addition enters through four properties that exact addition and the `double` addition
`ieee.add` both have: it is monotone in the accumulator, adding a non-negative term to a
representable accumulator does not decrease it, `0 + 0` is `0`, and sums are representable
(`a` is representable when `add a 0 = a`). -/
theorem C20_monotone_in_jets (A : Arith) (f : pMSSMFilter) (hj : 0 ≤ f.jetPtCut_)
    (hadd : ∀ a a1 b, 0 ≤ a → a ≤ a1 → 0 ≤ b → A.add a b ≤ A.add a1 b)
    (hgrow : ∀ a b, 0 ≤ a → 0 ≤ b → A.add a 0 = a → a ≤ A.add a b)
    (hzero : A.add 0 0 = 0)
    (hidem : ∀ x y, A.add (A.add x y) 0 = A.add x y) :
    (∀ (l1 l2 : List GenJet) (j : GenJet), HT A f (l1 ++ l2) ≤ HT A f (l1 ++ j :: l2)) ∧
    (∀ (gps : List GenParticle) (l1 l2 : List GenJet) (j : GenJet),
      f.filter A gps (l1 ++ l2) = some true → f.filter A gps (l1 ++ j :: l2) = some true) ∧
    (0 ≤ f.genHTcut_ → ∀ (gps : List GenParticle) (jets : List GenJet),
      (∀ gp ∈ gps, (decide (gp.status = 1) && gp.isLastCopy) = false) →
      (∀ j ∈ jets, ¬ (j.pt > f.jetPtCut_ ∧ |j.eta| < f.jetEtaCut_)) →
      f.filter A gps jets = some false) := by
  have hmono : ∀ (l1 l2 : List GenJet) (j : GenJet),
      HT A f (l1 ++ l2) ≤ HT A f (l1 ++ j :: l2) :=
    HT_insert_le A f hj hadd hgrow hzero hidem
  refine ⟨hmono, ?_, ?_⟩
  · intro gps l1 l2 j h
    unfold pMSSMFilter.filter at h ⊢
    cases hs : scan A f Counters.zero gps with
    | returned b => simpa [hs] using h
    | fault => simp [hs] at h
    | next c =>
      simp only [hs, Option.some.injEq, afterScan, genHT_eq_HT] at h ⊢
      have hm := hmono l1 l2 j
      split_ifs at h ⊢
      · rfl
      · rfl
      · simp only [decide_eq_true_eq] at h ⊢
        exact lt_of_lt_of_le h hm
  · intro hcut gps jets hns hnj
    unfold pMSSMFilter.filter
    rw [scan_of_none_survive A f gps Counters.zero hns]
    have hHT : HT A f jets = 0 := by
      unfold HT
      have : jets.filter (jetSelected f) = [] := by
        rw [List.filter_eq_nil_iff]
        intro j hjm
        simp only [jetSelected, decide_eq_true_eq]
        exact hnj j hjm
      simp [this]
    simp [afterScan, Counters.zero, genHT_eq_HT, hHT, hcut]

theorem C20_witness :
    sampleFilter.filter ieee [particle 13 4] ([⟨100, 0⟩] ++ ⟨35, 1⟩ :: [⟨50, 0⟩]) = some true ∧
      sampleFilter.filter ieee [{ particle 13 20 with status := 2 }] [⟨20, 0⟩, ⟨900, 7⟩] =
        some false :=
  ⟨(C20_monotone_in_jets ieee sampleFilter (by norm_num [sampleFilter]) ieee_add_mono
      ieee_add_grow ieee_add_zero ieee_add_idem).2.1 [particle 13 4]
      [⟨100, 0⟩] [⟨50, 0⟩] ⟨35, 1⟩
      (by
        norm_num [pMSSMFilter.filter, scan, loopBody, muonBlock, electronBlock, photonBlock,
          charginoBlock, Flow.andThen, afterScan, genHT, sampleFilter, particle,
          Counters.zero, ieee_add_100, ieee_add_100_50]),
    (C20_monotone_in_jets ieee sampleFilter (by norm_num [sampleFilter]) ieee_add_mono
      ieee_add_grow ieee_add_zero ieee_add_idem).2.2
      (by norm_num [sampleFilter]) [{ particle 13 20 with status := 2 }]
      [⟨20, 0⟩, ⟨900, 7⟩]
      (by
        intro gp hgp
        simp only [List.mem_singleton] at hgp
        subst hgp
        decide)
      (by
        intro j hj
        simp only [List.mem_cons, List.mem_singleton, List.not_mem_nil, or_false] at hj
        rcases hj with rfl | rfl <;> norm_num [sampleFilter])⟩

end PMSSM
